import Mathlib

/-!
# nzai/ro : connection manager and distributed lock

A shallow embedding of `ro.go`, `error.go`, `key.go`, `string.go`, `hash_set.go`,
`set.go` and `steam.go`.

* The process globals of `ro.go` (`globalRedisClient`, `globalOption`) are fields
  of an explicit `World`, threaded through every operation.
* The redis server and the network are the environment: the outcome of the k-th
  liveness probe and of the k-th store command is read from an `Env`; the store
  itself is the list of the keys it currently holds.  Store-side expiry of a key
  is an event of the environment (`World.expire`), never an action of the client.
* `GetRedis` runs its whole body under `globalMutex`, so concurrent calls are
  serialised: a call is one atomic state transition.
* Time inside `GetLocker` is counted in nanoseconds from the call of
  `context.WithTimeout`.  A context is described by the instant at which its
  `Done` channel closes and the error `Err` then reports.
* A handler is a function of the context it receives and of the memory of its
  caller: it tells how its run ends (a return, a panic, no end) and the memory it
  leaves.  The goroutine that runs it is never killed, so its effect on that
  memory is recorded when it is started, whether or not `GetLocker` waits for
  its end.
* Concurrent calls of `GetLocker` are interleavings of their atomic steps
  (`System.run`).
* The functions of `strconv` the package calls are written out from their
  documented behaviour on decimal texts; `json.Marshal` and `json.Unmarshal` are
  known by what they return.
* Logging is observability only and is left out.
-/

namespace Ro

/-! ## Errors -/

/-- The error values the package can hand to a caller: the four sentinels of
`error.go`, `redis.Nil`, the two errors of package `context`, errors reported by
the store client, errors built with `fmt.Errorf`, and any other error value. -/
inductive Error where
  | ErrBadRequest
  | ErrInvalidResultCount
  | ErrConfigUndefined
  | ErrRecordNotFound
  | redisNil
  | canceled
  | deadlineExceeded
  | transport (msg : String)
  | errorf (msg : String)
  | custom (msg : String)
  deriving DecidableEq, Repr

/-- The text `err.Error()` returns. -/
def Error.message : Error → String
  | .ErrBadRequest => "bad request"
  | .ErrInvalidResultCount => "invalid result count"
  | .ErrConfigUndefined => "redis config undefined"
  | .ErrRecordNotFound => "record not found"
  | .redisNil => "redis: nil"
  | .canceled => "context canceled"
  | .deadlineExceeded => "context deadline exceeded"
  | .transport msg => msg
  | .errorf msg => msg
  | .custom msg => msg

/-- A value given to `panic`: a string, an error, an integer, or the value
`log.Panic` raises (its message, with the error it logged). -/
inductive PanicValue where
  | str (s : String)
  | err (e : Error)
  | int (n : Int)
  | logged (msg : String) (e : Error)
  deriving DecidableEq, Repr

/-- The rendering of a panic value by the verb `%+v`. -/
def PanicValue.describe : PanicValue → String
  | .str s => s
  | .err e => e.message
  | .int n => toString n
  | .logged msg _ => msg

/-- How a call ends: it returns a value, it panics, or it blocks for ever. -/
inductive Outcome (α : Type) where
  | ret (a : α)
  | panicked (v : PanicValue)
  | blocked
  deriving DecidableEq, Repr

/-! ## The world -/

/-- The fields of `redis.Options` the tests set. -/
structure Options where
  Addr : String
  Username : String
  Password : String
  DB : Int
  deriving DecidableEq, Repr

/-- A `*redis.Client`: `id` is the identity of the allocation made by
`redis.NewClient` (two handles are the same pointer iff their `id` agree). -/
structure Client where
  id : Nat
  opt : Options
  deriving DecidableEq, Repr

/-- A command sent to the store. -/
inductive Command where
  | setnx (key value : String) (expiration : Int)
  | del (key : String)
  | expire (key : String) (expiration : Int)
  | expireAt (key : String) (t : Int)
  | ttl (key : String)
  | exists (key : String)
  | get (key : String)
  | set (key value : String) (expiration : Int)
  | incr (key : String)
  | incrBy (key : String) (value : Int)
  | hget (key field : String)
  | hmget (key : String) (fields : List String)
  | hgetAll (key : String)
  | hset (key field value : String)
  | hdel (key : String) (fields : List String)
  | hlen (key : String)
  | sadd (key : String) (members : List String)
  | srem (key : String) (members : List String)
  | sisMember (key member : String)
  | smembers (key : String)
  | smembersMap (key : String)
  | scard (key : String)
  | xadd (stream : String) (maxLen limit : Int) (id : String) (values : List (String × String))
  | xack (key group : String) (ids : List String)
  | xgroupCreateMkStream (key name pos : String)
  | xreadGroup (group consumer : String) (streams : List String) (count block : Int)
      (noAck : Bool)
  deriving DecidableEq, Repr

/-- An `interface{}` element of a reply: nil, a string, or a value of another
type. -/
inductive Value where
  | null
  | str (s : String)
  | other (n : Int)
  deriving DecidableEq, Repr

/-- `redis.XMessage`. -/
structure XMessage where
  ID : String
  Values : List (String × String)
  deriving DecidableEq, Repr

/-- `redis.XStream`. -/
structure XStream where
  Stream : String
  Messages : List XMessage
  deriving DecidableEq, Repr

/-- The state every operation reads and writes: the globals of `ro.go`, the
number of clients constructed and of probes sent so far, the keys the store
holds, the commands sent to it, the number of handler invocations, and the
memory of the caller (`user`) on which handlers act. -/
structure World (σ : Type) where
  globalRedisClient : Option Client
  globalOption : Option Options
  newClients : Nat
  pings : Nat
  store : List (String × String)
  commands : List Command
  invoked : Nat
  user : σ

/-- The environment: `ping k` is the error of the k-th liveness probe and
`fault k` the transport or store error that answers the k-th command (`none`:
no error).  For the commands whose answer the store decides from data this
development does not track, the value that answers the k-th command is read
from the field of its type.  `intSize` is the width of `int` on the platform and
`unmarshal` the error of `json.Unmarshal` on a text. -/
structure Env where
  ping : Nat → Option Error
  fault : Nat → Option Error
  strings : Nat → String := fun _ => ""
  ints : Nat → Int := fun _ => 0
  bools : Nat → Bool := fun _ => false
  values : Nat → List Value := fun _ => []
  maps : Nat → List (String × String) := fun _ => []
  lists : Nat → List String := fun _ => []
  streams : Nat → List XStream := fun _ => []
  intSize : Nat := 64
  unmarshal : String → Option Error := fun _ => none

/-- Whether the store holds `key`. -/
def present (store : List (String × String)) (key : String) : Bool :=
  (store.lookup key).isSome

/-- Store-side expiry of `key`: the store removes it. -/
def World.expire {σ : Type} (key : String) (w : World σ) : World σ :=
  { w with store := w.store.filter (fun kv => kv.1 != key) }

/-! ## ro.go -/

/-- `GetRedis`: the cached handle if there is one; `ErrConfigUndefined` without
a configuration; otherwise a new client, probed once, cached only when the probe
succeeds. -/
def GetRedis {σ : Type} (env : Env) (w : World σ) :
    (Option Client × Option Error) × World σ :=
  match w.globalRedisClient with
  | some c => ((some c, none), w)
  | none =>
    match w.globalOption with
    | none => ((none, some .ErrConfigUndefined), w)
    | some opt =>
      let client : Client := ⟨w.newClients, opt⟩
      let w1 := { w with newClients := w.newClients + 1 }
      let w2 := { w1 with pings := w1.pings + 1 }
      match env.ping w1.pings with
      | some err => ((none, some err), w2)
      | none => ((some client, none), { w2 with globalRedisClient := some client })

/-- `SetConfig`. -/
def SetConfig {σ : Type} (c : Option Options) (w : World σ) : World σ :=
  { w with globalOption := c }

/-- `MustGetRedis`: `GetRedis`, with any error turned into a panic by
`log.Panic`. -/
def MustGetRedis {σ : Type} (env : Env) (w : World σ) :
    Outcome (Option Client) × World σ :=
  match GetRedis env w with
  | ((client, err), w1) =>
    match err with
    | some e => (.panicked (.logged "Get redis failed" e), w1)
    | none => (.ret client, w1)

/-! ## key.go, string.go -/

/-- `Key`. -/
structure Key where
  key : String
  deriving DecidableEq, Repr

/-- `StringKey` embeds a `Key`. -/
structure StringKey extends Key
  deriving DecidableEq, Repr

/-- `NewStringKey`. -/
def NewStringKey (key : String) : StringKey := { key := key }

/-- The store's conditional set, `client.SetNX(ctx, key, value, expiration).Result()`:
one atomic command; it stores the value and reports `true` only when the key is
absent.  A transport or store error gives `(false, err)`.  The expiration is kept
in the command; what the store holds once the time-to-live has run is given by
`storeTTL` and `GetLockerTimed`. -/
def clientSetNX {σ : Type} (env : Env) (key value : String) (expiration : Int)
    (w : World σ) : (Bool × Option Error) × World σ :=
  let w1 := { w with commands := w.commands ++ [Command.setnx key value expiration] }
  match env.fault w.commands.length with
  | some e => ((false, some e), w1)
  | none =>
    if present w.store key then ((false, none), w1)
    else ((true, none), { w1 with store := (key, value) :: w.store })

/-- The value of a panic on a nil `*redis.Client`. -/
def nilDereference : PanicValue :=
  .str "runtime error: invalid memory address or nil pointer dereference"

/-- The second half of `StringKey.SetNX`: the command on the client
`MustGetRedis` returned. -/
def setNXOn {σ : Type} (env : Env) (k : StringKey) (value : String) (expiration : Int)
    (client : Option Client) (w : World σ) : Outcome (Bool × Option Error) × World σ :=
  match client with
  | none => (.panicked nilDereference, w)
  | some _ =>
    match clientSetNX env k.key value expiration w with
    | ((success, err), w1) =>
      match err with
      | some e => (.ret (false, some e), w1)
      | none => (.ret (success, none), w1)

/-- `StringKey.SetNX`. -/
def StringKey.SetNX {σ : Type} (env : Env) (k : StringKey) (value : String)
    (expiration : Int) (w : World σ) : Outcome (Bool × Option Error) × World σ :=
  match MustGetRedis env w with
  | (.ret client, w1) => setNXOn env k value expiration client w1
  | (.panicked v, w1) => (.panicked v, w1)
  | (.blocked, w1) => (.blocked, w1)

/-! ## Contexts, handlers and the select of `GetLocker` -/

/-- A `context.Context`, seen from the call of `context.WithTimeout`: `done` is
the instant (in nanoseconds from that call, `0` when it is done already) at which
`Done()` closes, with the error `Err()` reports from then on; `none` for a
context that is never done, such as `context.Background()`. -/
structure Ctx where
  done : Option (Nat × Error)
  deriving DecidableEq, Repr

/-- The choices left to the Go scheduler: which of two cancellations that fall
on the same instant reaches the derived context first, and which case `select`
takes when both are ready at the same instant. -/
structure Sched where
  parentFirst : Bool
  handlerFirst : Bool
  deriving DecidableEq, Repr

/-- `context.WithTimeout(parent, timeout)`: done at the deadline (at once when
the timeout is not positive) with `DeadlineExceeded`, or earlier, with the
error of the parent, when the parent is done first. -/
def WithTimeout (parent : Ctx) (timeout : Int) (sched : Sched) : Ctx :=
  let own := timeout.toNat
  match parent.done with
  | none => ⟨some (own, .deadlineExceeded)⟩
  | some (c, e) =>
    if c < own then ⟨some (c, e)⟩
    else if own < c then ⟨some (own, .deadlineExceeded)⟩
    else if c = 0 ∨ sched.parentFirst = true then ⟨some (c, e)⟩
    else ⟨some (own, .deadlineExceeded)⟩

/-- What a handler does once invoked: it returns `result` after `after`
nanoseconds, it panics after `after` nanoseconds (`value` is what `recover()`
then yields, `none` for nil), or it never comes back. -/
inductive HandlerRun where
  | returns (after : Nat) (result : Option Error)
  | panics (after : Nat) (value : Option PanicValue)
  | hangs
  deriving DecidableEq, Repr

/-- A handler `func(context.Context) error`: from the context it is given and
the memory of the caller, its run and the memory it leaves. -/
abbrev Handler (σ : Type) := Ctx → σ → HandlerRun × σ

/-- What the goroutine of `GetLocker` sends on `funcDone`, and when: the result
of a handler that returns, the error made from a recovered non-nil panic value,
nothing otherwise. -/
def goroutineSend : HandlerRun → Option (Nat × Option Error)
  | .returns d r => some (d, r)
  | .panics d (some v) => some (d, some (.errorf ("handler panic: " ++ v.describe)))
  | .panics _ none => none
  | .hangs => none

/-- The `select` of `GetLocker`: the case that is ready first is taken. -/
def selectDone (send : Option (Nat × Option Error)) (ctx : Ctx) (sched : Sched) :
    Outcome (Option Error) :=
  match send, ctx.done with
  | some (d, r), some (t, e) =>
    if d < t then .ret r
    else if t < d then .ret (some e)
    else if sched.handlerFirst then .ret r else .ret (some e)
  | some (_, r), none => .ret r
  | none, some (_, e) => .ret (some e)
  | none, none => .blocked

/-- The part of `GetLocker` that follows a successful acquisition: derive the
context, start the handler in its goroutine, wait in the `select`.  The world
counts the invocation and takes the memory the handler leaves. -/
def lockedSection {σ : Type} (sched : Sched) (ctx : Ctx) (expiration : Int)
    (handler : Handler σ) (w : World σ) : Outcome (Option Error) × World σ :=
  let ctxWithTimeout := WithTimeout ctx expiration sched
  match handler ctxWithTimeout w.user with
  | (run, u) =>
    (selectDone (goroutineSend run) ctxWithTimeout sched,
      { w with invoked := w.invoked + 1, user := u })

/-- The part of `GetLocker` that follows `SetNX`. -/
def afterSetNX {σ : Type} (sched : Sched) (ctx : Ctx) (expiration : Int)
    (handler : Handler σ) (r : Outcome (Bool × Option Error)) (w : World σ) :
    Outcome (Option Error) × World σ :=
  match r with
  | .ret (got, err) =>
    match err with
    | some e => (.ret (some e), w)
    | none =>
      if !got then (.ret none, w)
      else lockedSection sched ctx expiration handler w
  | .panicked v => (.panicked v, w)
  | .blocked => (.blocked, w)

/-- `StringKey.GetLocker`. -/
def StringKey.GetLocker {σ : Type} (env : Env) (sched : Sched) (k : StringKey) (ctx : Ctx)
    (expiration : Int) (handler : Handler σ) (w : World σ) :
    Outcome (Option Error) × World σ :=
  match k.SetNX env "" expiration w with
  | (r, w1) => afterSetNX sched ctx expiration handler r w1

/-! ## Successive calls of `GetRedis` -/

/-- The results of `n` successive calls of `GetRedis`, in order, and the world
they leave. -/
def GetRedisTimes {σ : Type} (env : Env) : Nat → World σ →
    List (Option Client × Option Error) × World σ
  | 0, w => ([], w)
  | n + 1, w =>
    match GetRedis env w with
    | (r, w1) =>
      match GetRedisTimes env n w1 with
      | (rs, w2) => (r :: rs, w2)

/-! ## Concurrent attempts on one lock key

Each attempt is a goroutine running `GetLocker` with the same key, expiry and
handler.  The shared state is touched in three atomic steps: the call of
`MustGetRedis` (under `globalMutex`), the conditional set (atomic at the store)
and the run of the handler.  A schedule is any interleaving of these steps, with
the expiries the store performs in between. -/

/-- Where an attempt stands. -/
inductive Pc where
  | start
  | connected (client : Option Client)
  | locked
  | finished (r : Outcome (Option Error))
  deriving DecidableEq, Repr

/-- One goroutine calling `GetLocker`: its context, the scheduler choices that
concern it, and its position. -/
structure Attempt where
  ctx : Ctx
  sched : Sched
  pc : Pc
  deriving DecidableEq, Repr

/-- The next atomic step of an attempt. -/
def stepAttempt {σ : Type} (env : Env) (k : StringKey) (expiration : Int)
    (handler : Handler σ) (a : Attempt) (w : World σ) : Attempt × World σ :=
  match a.pc with
  | .start =>
    match MustGetRedis env w with
    | (.ret client, w1) => ({ a with pc := .connected client }, w1)
    | (.panicked v, w1) => ({ a with pc := .finished (.panicked v) }, w1)
    | (.blocked, w1) => ({ a with pc := .finished .blocked }, w1)
  | .connected client =>
    match setNXOn env k "" expiration client w with
    | (.ret (got, err), w1) =>
      match err with
      | some e => ({ a with pc := .finished (.ret (some e)) }, w1)
      | none =>
        if !got then ({ a with pc := .finished (.ret none) }, w1)
        else ({ a with pc := .locked }, w1)
    | (.panicked v, w1) => ({ a with pc := .finished (.panicked v) }, w1)
    | (.blocked, w1) => ({ a with pc := .finished .blocked }, w1)
  | .locked =>
    match lockedSection a.sched a.ctx expiration handler w with
    | (r, w1) => ({ a with pc := .finished r }, w1)
  | .finished _ => (a, w)

/-- The attempts and the world they share. -/
structure System (σ : Type) where
  world : World σ
  attempts : List Attempt

/-- What the scheduler or the store does next: attempt `i` takes a step, or the
store expires a key. -/
inductive Event where
  | run (i : Nat)
  | expire (key : String)
  deriving DecidableEq, Repr

/-- One event. -/
def System.step {σ : Type} (env : Env) (k : StringKey) (expiration : Int)
    (handler : Handler σ) (s : System σ) (ev : Event) : System σ :=
  match ev with
  | .expire key => { s with world := s.world.expire key }
  | .run i =>
    match s.attempts[i]? with
    | none => s
    | some a =>
      match stepAttempt env k expiration handler a s.world with
      | (a1, w1) => { world := w1, attempts := s.attempts.set i a1 }

/-- A schedule, event after event. -/
def System.run {σ : Type} (env : Env) (k : StringKey) (expiration : Int)
    (handler : Handler σ) (s : System σ) (evs : List Event) : System σ :=
  evs.foldl (System.step env k expiration handler) s

/-- The handler of the locking test: it adds one to the shared counter and
returns nil, `d` nanoseconds after it was started. -/
def countingHandler (d : Nat) : Handler Nat :=
  fun _ total => (.returns d none, total + 1)

/-- Whether an attempt has returned. -/
def Pc.isFinished : Pc → Bool
  | .finished _ => true
  | _ => false

/-- The number of steps an attempt has taken on its way to its return. -/
def Pc.stage : Pc → Nat
  | .start => 0
  | .connected _ => 1
  | .locked => 2
  | .finished _ => 3

/-- Whether a handler run is still going on `t` nanoseconds after its start. -/
def HandlerRun.lastsLongerThan (t : Nat) : HandlerRun → Prop
  | .returns d _ => t < d
  | .panics d _ => t < d
  | .hangs => True

/-! ## Sample values -/

/-- The configuration of the tests. -/
def testOptions : Options := { Addr := "127.0.0.1:16379", Username := "", Password := "", DB := 0 }

/-- An environment in which every probe and every command goes through. -/
def calmEnv : Env := { ping := fun _ => none, fault := fun _ => none }

/-- A world with a configuration, no cached handle and an empty store. -/
def freshWorld : World Nat :=
  { globalRedisClient := none, globalOption := some testOptions, newClients := 0, pings := 0,
    store := [], commands := [], invoked := 0, user := 0 }

/-- A world with a cached handle in which the key `test5` is held. -/
def heldWorld : World Nat :=
  { globalRedisClient := some ⟨0, testOptions⟩, globalOption := some testOptions,
    newClients := 1, pings := 1, store := [("test5", "")],
    commands := [Command.setnx "test5" "" 500000000], invoked := 1, user := 1 }

/-- The scheduler choices used in the examples. -/
def sampleSched : Sched := { parentFirst := false, handlerFirst := false }

/-- The context `context.Background()`. -/
def Background : Ctx := { done := none }

/-- An environment in which the first store command fails with a transport
error. -/
def brokenPipe : Env :=
  { ping := fun _ => none,
    fault := fun n => if n = 0 then some (.transport "write: broken pipe") else none }

/-- A context its owner cancels 1 ns after `GetLocker` derived its own. -/
def cancelledSoon : Ctx := { done := some (1, .canceled) }

/-- A handler that returns nil after 5 ns and leaves the memory alone. -/
def quickHandler : Handler Nat := fun _ u => (.returns 5 none, u)

/-- A handler that panics with the string `boom` after 5 ns. -/
def boomHandler : Handler Nat := fun _ u => (.panics 5 (some (.str "boom")), u)

/-- A handler that never comes back. -/
def stuckHandler : Handler Nat := fun _ u => (.hangs, u)

/-- A handler that returns the error `late` after 20 ns. -/
def slowHandler : Handler Nat := fun _ u => (.returns 20 (some (.custom "late")), u)

instance (t : Nat) (run : HandlerRun) : Decidable (run.lastsLongerThan t) := by
  cases run <;> unfold HandlerRun.lastsLongerThan <;> infer_instance

/-- A world in which `SetConfig` was never called. -/
def bareWorld : World Nat :=
  { globalRedisClient := none, globalOption := none, newClients := 0, pings := 0,
    store := [], commands := [], invoked := 0, user := 0 }

/-- An environment in which the first liveness probe is refused and the later
ones succeed. -/
def lateServer : Env :=
  { ping := fun n => if n = 0 then some (.transport "dial tcp: connection refused") else none,
    fault := fun _ => none }

/-! ## Invariants of the concurrent attempts -/

/-- Connection acquisition can succeed: a handle is cached or a configuration
was supplied. -/
def connectable {σ : Type} (w : World σ) : Prop :=
  w.globalRedisClient.isSome = true ∨ w.globalOption.isSome = true

/-- The result `GetLocker` gives the attempt `a` when the handler it started
returns nil after `d` nanoseconds. -/
def winnerResult (expiration : Int) (d : Nat) (a : Attempt) : Outcome (Option Error) :=
  selectDone (some (d, none)) (WithTimeout a.ctx expiration a.sched) a.sched

/-- The positions an attempt can be in when the store answers every command: it
holds a client once connected, and it has returned nil or what its own select
gave. -/
def Attempt.sound (expiration : Int) (d : Nat) (a : Attempt) : Prop :=
  match a.pc with
  | .connected c => c.isSome = true
  | .finished r => r = .ret none ∨ r = winnerResult expiration d a
  | _ => True

/-- Mutual exclusion on the key `k`, for the counting handler, from a world with
`i0` invocations and the counter at zero.  Either the key is free and no attempt
is past its conditional set; or the key is held, one attempt is between its
conditional set and its handler, and no handler has run; or the key is held, the
handler has run once, and no attempt is between its conditional set and its
handler. -/
def Exclusion (k : StringKey) (i0 : Nat) (s : System Nat) : Prop :=
  (present s.world.store k.key = false ∧ s.world.invoked = i0 ∧ s.world.user = 0 ∧
    ∀ (j : Nat) (b : Attempt), s.attempts[j]? = some b → b.pc.stage ≤ 1) ∨
  (present s.world.store k.key = true ∧ s.world.invoked = i0 ∧ s.world.user = 0 ∧
    ∃ i : Nat, (∃ a : Attempt, s.attempts[i]? = some a ∧ a.pc = .locked) ∧
      ∀ (j : Nat) (b : Attempt), s.attempts[j]? = some b → b.pc = .locked → j = i) ∨
  (present s.world.store k.key = true ∧ s.world.invoked = i0 + 1 ∧ s.world.user = 1 ∧
    ∀ (j : Nat) (b : Attempt), s.attempts[j]? = some b → b.pc ≠ .locked)

/-- The invariant of a run in which the store answers every command. -/
def Invariant (k : StringKey) (expiration : Int) (d : Nat) (i0 : Nat) (s : System Nat) : Prop :=
  connectable s.world ∧
  (∀ (j : Nat) (b : Attempt), s.attempts[j]? = some b → b.sound expiration d) ∧
  Exclusion k i0 s

/-- The attempts of `n` goroutines about to call `GetLocker`, each with its own
context and scheduler choices. -/
def startAll (params : List (Ctx × Sched)) : List Attempt :=
  params.map (fun p => { ctx := p.1, sched := p.2, pc := .start })

/-- Three goroutines under `context.Background()`. -/
def threeCallers : List (Ctx × Sched) :=
  [(Background, sampleSched), (Background, sampleSched), (Background, sampleSched)]

/-- An interleaving of the steps of three attempts, with the expiry of an
unrelated key in between. -/
def sampleSchedule : List Event :=
  [.run 2, .run 0, .run 1, .run 1, .expire "test1", .run 0, .run 2, .run 2, .run 1, .run 0]

/-! ## The other operations of the key handles

Every operation reaches the store through `MustGetRedis(ctx).<Command>(...)`.
The strings written by `Set` and `SetNX` are kept in `World.store`, where `Get`
reads them and `Del` removes them; the effect of the other commands on the data
of the store is not tracked, and their answers come from the environment. -/

/-- Sequencing: the rest of a function body runs when the call before it
returned; a panic (or a call that never returns) ends the function. -/
def andThen {σ α β : Type} (x : Outcome α × World σ)
    (f : α → World σ → Outcome β × World σ) : Outcome β × World σ :=
  match x with
  | (.ret a, w) => f a w
  | (.panicked v, w) => (.panicked v, w)
  | (.blocked, w) => (.blocked, w)

/-- `MustGetRedis(ctx).<Command>(...)`: the connection is acquired, then the
command is sent.  The result is the position of the command among the commands
sent so far (where the environment is asked for its answer) and the error of the
command; `effect` is what the command does to the stored strings when the store
accepts it. -/
def send {σ : Type} (env : Env) (cmd : Command)
    (effect : List (String × String) → List (String × String)) (w : World σ) :
    Outcome (Nat × Option Error) × World σ :=
  match MustGetRedis env w with
  | (.ret client, w1) =>
    match client with
    | none => (.panicked nilDereference, w1)
    | some _ =>
      match env.fault w1.commands.length with
      | some e => (.ret (w1.commands.length, some e), { w1 with commands := w1.commands ++ [cmd] })
      | none =>
        (.ret (w1.commands.length, none),
          { w1 with commands := w1.commands ++ [cmd], store := effect w1.store })
  | (.panicked v, w1) => (.panicked v, w1)
  | (.blocked, w1) => (.blocked, w1)

/-- The shape `value, err := ...; if err != nil { return zero, err }; return value, nil`. -/
def passThrough {α : Type} (zero value : α) (err : Option Error) : α × Option Error :=
  match err with
  | some e => (zero, some e)
  | none => (value, none)

/-- The assignment `m[k] = v` on a Go map, kept as a list of entries with
distinct keys. -/
def mapSet : List (String × String) → String → String → List (String × String)
  | [], k, v => [(k, v)]
  | (k1, v1) :: rest, k, v =>
    if k1 = k then (k, v) :: rest else (k1, v1) :: mapSet rest k v

/-! ### key.go -/

/-- `Key.Del`. -/
def Key.Del {σ : Type} (env : Env) (k : Key) (w : World σ) : Outcome (Option Error) × World σ :=
  andThen (send env (.del k.key) (fun st => st.filter (fun kv => kv.1 != k.key)) w)
    fun r w1 => (.ret r.2, w1)

/-- `Key.Expire`. -/
def Key.Expire {σ : Type} (env : Env) (k : Key) (expiration : Int) (w : World σ) :
    Outcome (Option Error) × World σ :=
  andThen (send env (.expire k.key expiration) id w) fun r w1 => (.ret r.2, w1)

/-- `Key.ExpireAt`. -/
def Key.ExpireAt {σ : Type} (env : Env) (k : Key) (t : Int) (w : World σ) :
    Outcome (Option Error) × World σ :=
  andThen (send env (.expireAt k.key t) id w) fun r w1 => (.ret r.2, w1)

/-- `Key.TTL`. -/
def Key.TTL {σ : Type} (env : Env) (k : Key) (w : World σ) :
    Outcome (Int × Option Error) × World σ :=
  andThen (send env (.ttl k.key) id w) fun r w1 =>
    (.ret (passThrough 0 (env.ints r.1) r.2), w1)

/-- `Key.Exists`: the store answers with a count, `exists := count > 0`. -/
def Key.Exists {σ : Type} (env : Env) (k : Key) (w : World σ) :
    Outcome (Bool × Option Error) × World σ :=
  andThen (send env (.exists k.key) id w) fun r w1 =>
    (.ret (passThrough false (decide (0 < env.ints r.1)) r.2), w1)

/-! ### strconv -/

/-- The character of a decimal digit. -/
def digitChar (d : Nat) : Char := Char.ofNat (48 + d)

/-- The decimal digits of `n`, most significant first, pushed in front of `acc`;
`fuel` bounds the number of digits. -/
def formatBits : Nat → Nat → List Char → List Char
  | 0, _, acc => acc
  | fuel + 1, n, acc =>
    if n < 10 then digitChar n :: acc
    else formatBits fuel (n / 10) (digitChar (n % 10) :: acc)

/-- The decimal text of a natural number. -/
def FormatUint (n : Nat) : List Char := formatBits (n + 1) n []

/-- `strconv.FormatInt(v, 10)`. -/
def FormatInt (v : Int) : String :=
  if v < 0 then String.mk ('-' :: FormatUint v.natAbs) else String.mk (FormatUint v.toNat)

/-- `strconv.Itoa(v)`, that is `FormatInt(int64(v), 10)`. -/
def Itoa (v : Int) : String := FormatInt v

/-- The value of a decimal digit, `none` for another character. -/
def digitValue (c : Char) : Option Nat :=
  if 48 ≤ c.toNat ∧ c.toNat ≤ 57 then some (c.toNat - 48) else none

/-- The digit loop of `strconv.ParseUint` in base 10. -/
def parseDigitsFrom (acc : Nat) : List Char → Option Nat
  | [] => some acc
  | c :: rest =>
    match digitValue c with
    | none => none
    | some d => parseDigitsFrom (acc * 10 + d) rest

/-- The `*strconv.NumError` for a text that is not a number. -/
def ErrSyntax : Error := .custom "strconv: invalid syntax"

/-- The `*strconv.NumError` for a number outside the type. -/
def ErrRange : Error := .custom "strconv: value out of range"

/-- `strconv.ParseInt(s, 10, bitSize)`: an optional sign, then at least one
digit and digits only; a value outside `[-2^(bitSize-1), 2^(bitSize-1))` is a
range error and gives the nearest bound. -/
def ParseInt (s : String) (bitSize : Nat) : Int × Option Error :=
  match s.data with
  | [] => (0, some ErrSyntax)
  | c :: rest =>
    let neg := decide (c = '-')
    let body := if c = '+' ∨ c = '-' then rest else c :: rest
    match body with
    | [] => (0, some ErrSyntax)
    | _ =>
      match parseDigitsFrom 0 body with
      | none => (0, some ErrSyntax)
      | some un =>
        let cutoff : Nat := 2 ^ (bitSize - 1)
        if neg = false ∧ cutoff ≤ un then ((cutoff : Int) - 1, some ErrRange)
        else if neg = true ∧ cutoff < un then (-(cutoff : Int), some ErrRange)
        else (if neg then -(un : Int) else (un : Int), none)

/-- `strconv.Atoi(s)`: `ParseInt(s, 10, 0)`, the width being the one of `int`. -/
def Atoi (intSize : Nat) (s : String) : Int × Option Error := ParseInt s intSize

/-! ### string.go -/

/-- What `GET key` answers from the stored strings: the value, or `redis.Nil`. -/
def storeGet (store : List (String × String)) (key : String) : String × Option Error :=
  match store.lookup key with
  | some v => (v, none)
  | none => ("", some .redisNil)

/-- `StringKey.Get`. -/
def StringKey.Get {σ : Type} (env : Env) (k : StringKey) (w : World σ) :
    Outcome (String × Option Error) × World σ :=
  andThen (send env (.get k.key) id w) fun r w1 =>
    match r.2 with
    | some e => (.ret ("", some e), w1)
    | none =>
      match storeGet w1.store k.key with
      | (value, err) => (.ret (passThrough "" value err), w1)

/-- `StringKey.GetDefault`. -/
def StringKey.GetDefault {σ : Type} (env : Env) (k : StringKey) (defaultValue : String)
    (w : World σ) : Outcome String × World σ :=
  andThen (k.Get env w) fun r w1 =>
    match r.2 with
    | some _ => (.ret defaultValue, w1)
    | none => (.ret r.1, w1)

/-- `StringKey.GetInt`. -/
def StringKey.GetInt {σ : Type} (env : Env) (k : StringKey) (w : World σ) :
    Outcome (Int × Option Error) × World σ :=
  andThen (k.Get env w) fun r w1 =>
    match r.2 with
    | some e => (.ret (0, some e), w1)
    | none =>
      match Atoi env.intSize r.1 with
      | (intValue, err) => (.ret (passThrough 0 intValue err), w1)

/-- `StringKey.GetInt64`. -/
def StringKey.GetInt64 {σ : Type} (env : Env) (k : StringKey) (w : World σ) :
    Outcome (Int × Option Error) × World σ :=
  andThen (k.Get env w) fun r w1 =>
    match r.2 with
    | some e => (.ret (0, some e), w1)
    | none =>
      match ParseInt r.1 64 with
      | (intValue, err) => (.ret (passThrough 0 intValue err), w1)

/-- `StringKey.GetObject`: the object is in the memory of the caller; what is
kept of `json.Unmarshal` is its error. -/
def StringKey.GetObject {σ : Type} (env : Env) (k : StringKey) (w : World σ) :
    Outcome (Option Error) × World σ :=
  andThen (k.Get env w) fun r w1 =>
    match r.2 with
    | some e => (.ret (some e), w1)
    | none => (.ret (env.unmarshal r.1), w1)

/-- `StringKey.Set`. -/
def StringKey.Set {σ : Type} (env : Env) (k : StringKey) (value : String) (expiration : Int)
    (w : World σ) : Outcome (Option Error) × World σ :=
  andThen (send env (.set k.key value expiration) (fun st => mapSet st k.key value) w)
    fun r w1 => (.ret r.2, w1)

/-- `StringKey.SetInt`. -/
def StringKey.SetInt {σ : Type} (env : Env) (k : StringKey) (value : Int) (expiration : Int)
    (w : World σ) : Outcome (Option Error) × World σ :=
  k.Set env (Itoa value) expiration w

/-- `StringKey.SetInt64`. -/
def StringKey.SetInt64 {σ : Type} (env : Env) (k : StringKey) (value : Int)
    (expiration : Int) (w : World σ) : Outcome (Option Error) × World σ :=
  k.Set env (FormatInt value) expiration w

/-- An object given to `json.Marshal`, known by what `json.Marshal` returns for
it. -/
structure Obj where
  marshal : String × Option Error
  deriving DecidableEq, Repr

/-- `StringKey.SetObject`. -/
def StringKey.SetObject {σ : Type} (env : Env) (k : StringKey) (obj : Obj)
    (expiration : Int) (w : World σ) : Outcome (Option Error) × World σ :=
  match obj.marshal with
  | (buffer, err) =>
    match err with
    | some e => (.ret (some e), w)
    | none => k.Set env buffer expiration w

/-- `StringKey.Increase`. -/
def StringKey.Increase {σ : Type} (env : Env) (k : StringKey) (w : World σ) :
    Outcome (Int × Option Error) × World σ :=
  andThen (send env (.incr k.key) id w) fun r w1 =>
    (.ret (passThrough 0 (env.ints r.1) r.2), w1)

/-- `StringKey.IncreaseBy`. -/
def StringKey.IncreaseBy {σ : Type} (env : Env) (k : StringKey) (value : Int) (w : World σ) :
    Outcome (Int × Option Error) × World σ :=
  andThen (send env (.incrBy k.key value) id w) fun r w1 =>
    (.ret (passThrough 0 (env.ints r.1) r.2), w1)

/-! ### hash_set.go -/

/-- `HashSetKey` embeds a `Key`. -/
structure HashSetKey extends Key
  deriving DecidableEq, Repr

/-- `NewHashSetKey`. -/
def NewHashSetKey (key : String) : HashSetKey := { key := key }

/-- `HashSetKey.HGet`. -/
def HashSetKey.HGet {σ : Type} (env : Env) (k : HashSetKey) (field : String) (w : World σ) :
    Outcome (String × Option Error) × World σ :=
  andThen (send env (.hget k.key field) id w) fun r w1 =>
    (.ret (passThrough "" (env.strings r.1) r.2), w1)

/-- `HashSetKey.HGetObject`. -/
def HashSetKey.HGetObject {σ : Type} (env : Env) (k : HashSetKey) (field : String)
    (w : World σ) : Outcome (Option Error) × World σ :=
  andThen (k.HGet env field w) fun r w1 =>
    match r.2 with
    | some e => (.ret (some e), w1)
    | none => (.ret (env.unmarshal r.1), w1)

/-- The loop of `HMGet` over the values of the answer, from position `index`:
a value that is nil or not a string is skipped, a string is stored under
`fields[index]`. -/
def hmgetLoop (fields : List String) : Nat → List Value → List (String × String) →
    List (String × String)
  | _, [], result => result
  | index, value :: rest, result =>
    match value with
    | .str stringValue =>
      hmgetLoop fields (index + 1) rest (mapSet result (fields.getD index "") stringValue)
    | _ => hmgetLoop fields (index + 1) rest result

/-- `HashSetKey.HMGet`; the nil map is `none`. -/
def HashSetKey.HMGet {σ : Type} (env : Env) (k : HashSetKey) (fields : List String)
    (w : World σ) : Outcome (Option (List (String × String)) × Option Error) × World σ :=
  andThen (send env (.hmget k.key fields) id w) fun r w1 =>
    match r.2 with
    | some e => (.ret (none, some e), w1)
    | none =>
      if (env.values r.1).length ≠ fields.length then
        (.ret (none, some .ErrInvalidResultCount), w1)
      else (.ret (some (hmgetLoop fields 0 (env.values r.1) []), none), w1)

/-- `HashSetKey.HGetAll`. -/
def HashSetKey.HGetAll {σ : Type} (env : Env) (k : HashSetKey) (w : World σ) :
    Outcome (Option (List (String × String)) × Option Error) × World σ :=
  andThen (send env (.hgetAll k.key) id w) fun r w1 =>
    (.ret (passThrough none (some (env.maps r.1)) r.2), w1)

/-- `HashSetKey.HSet`. -/
def HashSetKey.HSet {σ : Type} (env : Env) (k : HashSetKey) (field value : String)
    (w : World σ) : Outcome (Option Error) × World σ :=
  andThen (send env (.hset k.key field value) id w) fun r w1 => (.ret r.2, w1)

/-- `HashSetKey.HSetObject`. -/
def HashSetKey.HSetObject {σ : Type} (env : Env) (k : HashSetKey) (field : String)
    (value : Obj) (w : World σ) : Outcome (Option Error) × World σ :=
  match value.marshal with
  | (buffer, err) =>
    match err with
    | some e => (.ret (some e), w)
    | none => k.HSet env field buffer w

/-- `HashSetKey.HDel`. -/
def HashSetKey.HDel {σ : Type} (env : Env) (k : HashSetKey) (field : List String)
    (w : World σ) : Outcome (Option Error) × World σ :=
  if field.length = 0 then (.ret none, w)
  else andThen (send env (.hdel k.key field) id w) fun r w1 => (.ret r.2, w1)

/-- `HashSetKey.HLen`. -/
def HashSetKey.HLen {σ : Type} (env : Env) (k : HashSetKey) (w : World σ) :
    Outcome (Int × Option Error) × World σ :=
  andThen (send env (.hlen k.key) id w) fun r w1 =>
    (.ret (passThrough 0 (env.ints r.1) r.2), w1)

/-! ### set.go -/

/-- `SetKey` embeds a `Key`. -/
structure SetKey extends Key
  deriving DecidableEq, Repr

/-- `NewSetKey`. -/
def NewSetKey (key : String) : SetKey := { key := key }

/-- `SetKey.SAdd`. -/
def SetKey.SAdd {σ : Type} (env : Env) (k : SetKey) (members : List String) (w : World σ) :
    Outcome (Option Error) × World σ :=
  if members.length = 0 then (.ret none, w)
  else andThen (send env (.sadd k.key members) id w) fun r w1 => (.ret r.2, w1)

/-- `SetKey.SRem`. -/
def SetKey.SRem {σ : Type} (env : Env) (k : SetKey) (members : List String) (w : World σ) :
    Outcome (Option Error) × World σ :=
  if members.length = 0 then (.ret none, w)
  else andThen (send env (.srem k.key members) id w) fun r w1 => (.ret r.2, w1)

/-- `SetKey.SIsMember`. -/
def SetKey.SIsMember {σ : Type} (env : Env) (k : SetKey) (member : String) (w : World σ) :
    Outcome (Bool × Option Error) × World σ :=
  andThen (send env (.sisMember k.key member) id w) fun r w1 =>
    (.ret (passThrough false (env.bools r.1) r.2), w1)

/-- `SetKey.SMembers`; the nil slice is `none`. -/
def SetKey.SMembers {σ : Type} (env : Env) (k : SetKey) (w : World σ) :
    Outcome (Option (List String) × Option Error) × World σ :=
  andThen (send env (.smembers k.key) id w) fun r w1 =>
    (.ret (passThrough none (some (env.lists r.1)) r.2), w1)

/-- `SetKey.SMembersMap`; the map to `struct{}` is the list of its keys. -/
def SetKey.SMembersMap {σ : Type} (env : Env) (k : SetKey) (w : World σ) :
    Outcome (Option (List String) × Option Error) × World σ :=
  andThen (send env (.smembersMap k.key) id w) fun r w1 =>
    (.ret (passThrough none (some (env.lists r.1)) r.2), w1)

/-- `SetKey.SCard`. -/
def SetKey.SCard {σ : Type} (env : Env) (k : SetKey) (w : World σ) :
    Outcome (Int × Option Error) × World σ :=
  andThen (send env (.scard k.key) id w) fun r w1 =>
    (.ret (passThrough 0 (env.ints r.1) r.2), w1)

/-! ### steam.go -/

/-- `StreamKey` embeds a `Key`. -/
structure StreamKey extends Key
  deriving DecidableEq, Repr

/-- `NewStreamKey`. -/
def NewStreamKey (key : String) : StreamKey := { key := key }

/-- `StreamKey.XAdd`. -/
def StreamKey.XAdd {σ : Type} (env : Env) (s : StreamKey) (id : String) (maxLen limit : Int)
    (values : List (String × String)) (w : World σ) :
    Outcome (String × Option Error) × World σ :=
  andThen (send env (.xadd s.key maxLen limit id values) (fun st => st) w) fun r w1 =>
    (.ret (passThrough "" (env.strings r.1) r.2), w1)

/-- The loop of `XAddToEnd`: `v[values[index]] = values[index+1]`, two
positions at a time. -/
def pairUp : List String → List (String × String) → List (String × String)
  | field :: value :: rest, v => pairUp rest (mapSet v field value)
  | _, v => v

/-- `StreamKey.XAddToEnd`. -/
def StreamKey.XAddToEnd {σ : Type} (env : Env) (s : StreamKey) (values : List String)
    (w : World σ) : Outcome (String × Option Error) × World σ :=
  if values.length < 2 ∨ values.length % 2 ≠ 0 then (.ret ("", some .ErrBadRequest), w)
  else s.XAdd env "*" 0 0 (pairUp values []) w

/-- `StreamKey.XAck`. -/
def StreamKey.XAck {σ : Type} (env : Env) (s : StreamKey) (group : String)
    (ids : List String) (w : World σ) : Outcome (Int × Option Error) × World σ :=
  andThen (send env (.xack s.key group ids) id w) fun r w1 =>
    (.ret (passThrough 0 (env.ints r.1) r.2), w1)

/-- `StreamKey.XGroupCreate`. -/
def StreamKey.XGroupCreate {σ : Type} (env : Env) (s : StreamKey) (name pos : String)
    (w : World σ) : Outcome (Option Error) × World σ :=
  andThen (send env (.xgroupCreateMkStream s.key name pos) id w) fun r w1 => (.ret r.2, w1)

/-- `StreamKey.XGroupCreateFromBegining`. -/
def StreamKey.XGroupCreateFromBegining {σ : Type} (env : Env) (s : StreamKey)
    (name : String) (w : World σ) : Outcome (Option Error) × World σ :=
  s.XGroupCreate env name "0" w

/-- `StreamKey.XGroupCreateFromEnd`. -/
def StreamKey.XGroupCreateFromEnd {σ : Type} (env : Env) (s : StreamKey) (name : String)
    (w : World σ) : Outcome (Option Error) × World σ :=
  s.XGroupCreate env name "$" w

/-- `StreamKey.XGroupRead`; the nil slice is `none`. -/
def StreamKey.XGroupRead {σ : Type} (env : Env) (s : StreamKey) (group consumer : String)
    (count block : Int) (noAck : Bool) (w : World σ) :
    Outcome (Option (List XMessage) × Option Error) × World σ :=
  andThen (send env (.xreadGroup group consumer [s.key, ">"] count block noAck) id w)
    fun r w1 =>
      match r.2 with
      | some err =>
        if err = .redisNil then (.ret (none, some .ErrRecordNotFound), w1)
        else (.ret (none, some err), w1)
      | none =>
        match env.streams r.1 with
        | [] => (.ret (none, some .ErrInvalidResultCount), w1)
        | first :: _ =>
          if first.Stream ≠ s.key then (.ret (none, some .ErrInvalidResultCount), w1)
          else (.ret (some first.Messages, none), w1)

/-! ### The operations as one type -/

/-- A call of an operation of a key handle, with its arguments. -/
inductive Operation (σ : Type) where
  | Del (k : Key)
  | Expire (k : Key) (expiration : Int)
  | ExpireAt (k : Key) (t : Int)
  | TTL (k : Key)
  | Exists (k : Key)
  | Get (k : StringKey)
  | GetDefault (k : StringKey) (defaultValue : String)
  | GetInt (k : StringKey)
  | GetInt64 (k : StringKey)
  | GetObject (k : StringKey)
  | Set (k : StringKey) (value : String) (expiration : Int)
  | SetInt (k : StringKey) (value : Int) (expiration : Int)
  | SetInt64 (k : StringKey) (value : Int) (expiration : Int)
  | SetObject (k : StringKey) (obj : Obj) (expiration : Int)
  | SetNX (k : StringKey) (value : String) (expiration : Int)
  | GetLocker (sched : Sched) (k : StringKey) (ctx : Ctx) (expiration : Int)
      (handler : Handler σ)
  | Increase (k : StringKey)
  | IncreaseBy (k : StringKey) (value : Int)
  | HGet (k : HashSetKey) (field : String)
  | HGetObject (k : HashSetKey) (field : String)
  | HMGet (k : HashSetKey) (fields : List String)
  | HGetAll (k : HashSetKey)
  | HSet (k : HashSetKey) (field value : String)
  | HSetObject (k : HashSetKey) (field : String) (value : Obj)
  | HDel (k : HashSetKey) (field : List String)
  | HLen (k : HashSetKey)
  | SAdd (k : SetKey) (members : List String)
  | SRem (k : SetKey) (members : List String)
  | SIsMember (k : SetKey) (member : String)
  | SMembers (k : SetKey)
  | SMembersMap (k : SetKey)
  | SCard (k : SetKey)
  | XAdd (s : StreamKey) (id : String) (maxLen limit : Int) (values : List (String × String))
  | XAddToEnd (s : StreamKey) (values : List String)
  | XAck (s : StreamKey) (group : String) (ids : List String)
  | XGroupCreate (s : StreamKey) (name pos : String)
  | XGroupCreateFromBegining (s : StreamKey) (name : String)
  | XGroupCreateFromEnd (s : StreamKey) (name : String)
  | XGroupRead (s : StreamKey) (group consumer : String) (count block : Int) (noAck : Bool)

/-- The error result of a call that returns a value and an error. -/
def errorOnly {σ α : Type} (x : Outcome (α × Option Error) × World σ) :
    Outcome (Option Error) × World σ :=
  andThen x fun r w => (.ret r.2, w)

/-- The call of an operation, seen through its error result.  `GetDefault` has
no error result: what it returns counts as nil. -/
def Operation.error {σ : Type} (env : Env) (op : Operation σ) (w : World σ) :
    Outcome (Option Error) × World σ :=
  match op with
  | .Del k => k.Del env w
  | .Expire k expiration => k.Expire env expiration w
  | .ExpireAt k t => k.ExpireAt env t w
  | .TTL k => errorOnly (k.TTL env w)
  | .Exists k => errorOnly (k.Exists env w)
  | .Get k => errorOnly (k.Get env w)
  | .GetDefault k defaultValue => andThen (k.GetDefault env defaultValue w) fun _ w1 => (.ret none, w1)
  | .GetInt k => errorOnly (k.GetInt env w)
  | .GetInt64 k => errorOnly (k.GetInt64 env w)
  | .GetObject k => k.GetObject env w
  | .Set k value expiration => k.Set env value expiration w
  | .SetInt k value expiration => k.SetInt env value expiration w
  | .SetInt64 k value expiration => k.SetInt64 env value expiration w
  | .SetObject k obj expiration => k.SetObject env obj expiration w
  | .SetNX k value expiration => errorOnly (k.SetNX env value expiration w)
  | .GetLocker sched k ctx expiration handler => k.GetLocker env sched ctx expiration handler w
  | .Increase k => errorOnly (k.Increase env w)
  | .IncreaseBy k value => errorOnly (k.IncreaseBy env value w)
  | .HGet k field => errorOnly (k.HGet env field w)
  | .HGetObject k field => k.HGetObject env field w
  | .HMGet k fields => errorOnly (k.HMGet env fields w)
  | .HGetAll k => errorOnly (k.HGetAll env w)
  | .HSet k field value => k.HSet env field value w
  | .HSetObject k field value => k.HSetObject env field value w
  | .HDel k field => k.HDel env field w
  | .HLen k => errorOnly (k.HLen env w)
  | .SAdd k members => k.SAdd env members w
  | .SRem k members => k.SRem env members w
  | .SIsMember k member => errorOnly (k.SIsMember env member w)
  | .SMembers k => errorOnly (k.SMembers env w)
  | .SMembersMap k => errorOnly (k.SMembersMap env w)
  | .SCard k => errorOnly (k.SCard env w)
  | .XAdd s id maxLen limit values => errorOnly (s.XAdd env id maxLen limit values w)
  | .XAddToEnd s values => errorOnly (s.XAddToEnd env values w)
  | .XAck s group ids => errorOnly (s.XAck env group ids w)
  | .XGroupCreate s name pos => s.XGroupCreate env name pos w
  | .XGroupCreateFromBegining s name => s.XGroupCreateFromBegining env name w
  | .XGroupCreateFromEnd s name => s.XGroupCreateFromEnd env name w
  | .XGroupRead s group consumer count block noAck =>
    errorOnly (s.XGroupRead env group consumer count block noAck w)

/-- The command a call sends to the store, `none` for a call that returns
before it reaches the store. -/
def Operation.command {σ : Type} : Operation σ → Option Command
  | .Del k => some (.del k.key)
  | .Expire k expiration => some (.expire k.key expiration)
  | .ExpireAt k t => some (.expireAt k.key t)
  | .TTL k => some (.ttl k.key)
  | .Exists k => some (.exists k.key)
  | .Get k => some (.get k.key)
  | .GetDefault k _ => some (.get k.key)
  | .GetInt k => some (.get k.key)
  | .GetInt64 k => some (.get k.key)
  | .GetObject k => some (.get k.key)
  | .Set k value expiration => some (.set k.key value expiration)
  | .SetInt k value expiration => some (.set k.key (Itoa value) expiration)
  | .SetInt64 k value expiration => some (.set k.key (FormatInt value) expiration)
  | .SetObject k obj expiration =>
    match obj.marshal.2 with
    | some _ => none
    | none => some (.set k.key obj.marshal.1 expiration)
  | .SetNX k value expiration => some (.setnx k.key value expiration)
  | .GetLocker _ k _ expiration _ => some (.setnx k.key "" expiration)
  | .Increase k => some (.incr k.key)
  | .IncreaseBy k value => some (.incrBy k.key value)
  | .HGet k field => some (.hget k.key field)
  | .HGetObject k field => some (.hget k.key field)
  | .HMGet k fields => some (.hmget k.key fields)
  | .HGetAll k => some (.hgetAll k.key)
  | .HSet k field value => some (.hset k.key field value)
  | .HSetObject k field value =>
    match value.marshal.2 with
    | some _ => none
    | none => some (.hset k.key field value.marshal.1)
  | .HDel k field => if field.length = 0 then none else some (.hdel k.key field)
  | .HLen k => some (.hlen k.key)
  | .SAdd k members => if members.length = 0 then none else some (.sadd k.key members)
  | .SRem k members => if members.length = 0 then none else some (.srem k.key members)
  | .SIsMember k member => some (.sisMember k.key member)
  | .SMembers k => some (.smembers k.key)
  | .SMembersMap k => some (.smembersMap k.key)
  | .SCard k => some (.scard k.key)
  | .XAdd s id maxLen limit values => some (.xadd s.key maxLen limit id values)
  | .XAddToEnd s values =>
    if values.length < 2 ∨ values.length % 2 ≠ 0 then none
    else some (.xadd s.key 0 0 "*" (pairUp values []))
  | .XAck s group ids => some (.xack s.key group ids)
  | .XGroupCreate s name pos => some (.xgroupCreateMkStream s.key name pos)
  | .XGroupCreateFromBegining s name => some (.xgroupCreateMkStream s.key name "0")
  | .XGroupCreateFromEnd s name => some (.xgroupCreateMkStream s.key name "$")
  | .XGroupRead s group consumer count block noAck =>
    some (.xreadGroup group consumer [s.key, ">"] count block noAck)

/-- Whether the signature of the operation has an error result. -/
def Operation.returnsError {σ : Type} : Operation σ → Bool
  | .GetDefault _ _ => false
  | _ => true

/-- The error an operation hands to its caller for the error `e` of the store:
`e` itself, except that `XGroupRead` reports `redis.Nil` as
`ErrRecordNotFound`. -/
def Operation.reported {σ : Type} (op : Operation σ) (e : Error) : Error :=
  match op with
  | .XGroupRead _ _ _ _ _ _ => if e = .redisNil then .ErrRecordNotFound else e
  | _ => e

/-- The errors that come from the store client: those of the transport and of
the store, `redis.Nil`, and the errors of a context that is done. -/
def Error.fromClient : Error → Bool
  | .transport _ => true
  | .redisNil => true
  | .canceled => true
  | .deadlineExceeded => true
  | _ => false

/-- What a redis server answers to `HMGET` on a hash: for each requested field,
in order, its value, or nil when the hash has no such field. -/
def hmgetAnswer (hash : List (String × String)) (fields : List String) : List Value :=
  fields.map fun f =>
    match hash.lookup f with
    | some v => .str v
    | none => .null

/-- An environment whose store holds the hash `1 ↦ 1, 2 ↦ 2` and is asked for
the fields `1`, `2` and `not exists`. -/
def hashServer : Env :=
  { ping := fun _ => none, fault := fun _ => none,
    values := fun _ => hmgetAnswer [("1", "1"), ("2", "2")] ["1", "2", "not exists"] }

/-- An environment whose store has nothing to deliver to the consumer: the group
read is answered by `redis.Nil`. -/
def idleStream : Env := { ping := fun _ => none, fault := fun _ => some .redisNil }

/-- An environment whose store delivers one message of the stream `stream2`. -/
def busyStream : Env :=
  { ping := fun _ => none, fault := fun _ => none,
    streams := fun _ => [{ Stream := "stream2",
                           Messages := [{ ID := "1-0", Values := [("fff", "1"), ("b", "2")] }] }] }

/-- The key the operations of the `Get` family read, for those that return an
error. -/
def Operation.getKey {σ : Type} : Operation σ → Option StringKey
  | .Get k => some k
  | .GetInt k => some k
  | .GetInt64 k => some k
  | .GetObject k => some k
  | _ => none

/-! ## The time-to-live of the lock key

`clientSetNX` records the key without its time-to-live, and expiry is an event
of the environment.  To say what the store holds at the instant `GetLocker`
returns, the definitions below put the store and the select on one clock: the
store starts the time-to-live when it executes the conditional set, `gap`
nanoseconds before `GetLocker` calls `context.WithTimeout`. -/

/-- The time-to-live, in nanoseconds, the store gives a key set with
`expiration`: none for `0` (the plain `SETNX`), one millisecond for a positive
duration below the millisecond, the duration cut to whole milliseconds
otherwise. -/
def storeTTL (expiration : Int) : Option Nat :=
  if expiration ≤ 0 then none
  else if expiration < 1000000 then some 1000000
  else some (expiration.toNat / 1000000 * 1000000)

/-- Whether the store has expired a key `elapsed` nanoseconds after it set it
with `expiration`. -/
def ttlElapsed (expiration : Int) (elapsed : Nat) : Bool :=
  match storeTTL expiration with
  | some ttl => decide (ttl ≤ elapsed)
  | none => false

/-- The instant, in nanoseconds from the call of `context.WithTimeout`, at which
the `select` of `GetLocker` returns. -/
def selectInstant (send : Option (Nat × Option Error)) (ctx : Ctx) : Nat :=
  match send, ctx.done with
  | some (d, _), some (t, _) => min d t
  | some (d, _), none => d
  | none, some (t, _) => t
  | none, none => 0

/-- The instant at which `GetLocker` returns once it acquired the lock. -/
def returnInstant {σ : Type} (sched : Sched) (ctx : Ctx) (expiration : Int)
    (handler : Handler σ) (w : World σ) : Nat :=
  selectInstant (goroutineSend (handler (WithTimeout ctx expiration sched) w.user).1)
    (WithTimeout ctx expiration sched)

/-- `GetLocker` with the world as it is at the instant of the return: when the
lock was acquired and the time-to-live of the key has run out by then, the store
has removed the key. -/
def StringKey.GetLockerTimed {σ : Type} (env : Env) (sched : Sched) (k : StringKey)
    (ctx : Ctx) (expiration : Int) (handler : Handler σ) (gap : Nat) (w : World σ) :
    Outcome (Option Error) × World σ :=
  match k.SetNX env "" expiration w with
  | (.ret (true, none), w1) =>
    match lockedSection sched ctx expiration handler w1 with
    | (r, w2) =>
      if ttlElapsed expiration (gap + returnInstant sched ctx expiration handler w1) then
        (r, w2.expire k.key)
      else (r, w2)
  | (r, w1) => afterSetNX sched ctx expiration handler r w1

end Ro

namespace Ro

/-! ## The conditional set leaves the handler state alone -/

theorem clientSetNX_frame {σ : Type} (env : Env) (key value : String) (expiration : Int)
    (w : World σ) :
    (clientSetNX env key value expiration w).2.invoked = w.invoked ∧
    (clientSetNX env key value expiration w).2.user = w.user := by
  unfold clientSetNX
  cases env.fault w.commands.length <;> simp
  split <;> simp

theorem GetRedis_frame {σ : Type} (env : Env) (w : World σ) :
    (GetRedis env w).2.invoked = w.invoked ∧ (GetRedis env w).2.user = w.user ∧
    (GetRedis env w).2.store = w.store ∧ (GetRedis env w).2.commands = w.commands := by
  unfold GetRedis
  cases w.globalRedisClient <;> simp
  cases w.globalOption <;> simp
  cases env.ping w.pings <;> simp

theorem MustGetRedis_frame {σ : Type} (env : Env) (w : World σ) :
    (MustGetRedis env w).2.invoked = w.invoked ∧ (MustGetRedis env w).2.user = w.user ∧
    (MustGetRedis env w).2.store = w.store ∧
    (MustGetRedis env w).2.commands = w.commands := by
  have h := GetRedis_frame env w
  unfold MustGetRedis
  rcases hg : GetRedis env w with ⟨⟨client, err⟩, w1⟩
  rw [hg] at h
  cases err <;> simpa using h

theorem setNXOn_frame {σ : Type} (env : Env) (k : StringKey) (value : String)
    (expiration : Int) (client : Option Client) (w : World σ) :
    (setNXOn env k value expiration client w).2.invoked = w.invoked ∧
    (setNXOn env k value expiration client w).2.user = w.user := by
  have h := clientSetNX_frame env k.key value expiration w
  unfold setNXOn
  cases client with
  | none => simp
  | some c =>
    rcases hc : clientSetNX env k.key value expiration w with ⟨⟨success, err⟩, w1⟩
    rw [hc] at h
    cases err <;> simpa using h

theorem SetNX_frame {σ : Type} (env : Env) (k : StringKey) (value : String)
    (expiration : Int) (w : World σ) :
    (k.SetNX env value expiration w).2.invoked = w.invoked ∧
    (k.SetNX env value expiration w).2.user = w.user := by
  have h := MustGetRedis_frame env w
  unfold StringKey.SetNX
  rcases hm : MustGetRedis env w with ⟨r, w1⟩
  rw [hm] at h
  cases r with
  | ret client =>
    have h2 := setNXOn_frame env k value expiration client w1
    simp only at h ⊢
    exact ⟨h2.1.trans h.1, h2.2.trans h.2.1⟩
  | panicked v => exact ⟨h.1, h.2.1⟩
  | blocked => exact ⟨h.1, h.2.1⟩

/-! ## C1, C6: the attempts that do not reach the handler -/

/-- C1: when the conditional set reports that the key was already present
(`got = false`, no error), `GetLocker` returns nil in the world `SetNX` left, in
which the handler has not been invoked and the memory of the caller is
untouched. -/
theorem GetLocker_not_acquired {σ : Type} (env : Env) (sched : Sched) (k : StringKey)
    (ctx : Ctx) (expiration : Int) (handler : Handler σ) (w w1 : World σ)
    (h : k.SetNX env "" expiration w = (.ret (false, none), w1)) :
    k.GetLocker env sched ctx expiration handler w = (.ret none, w1) ∧
    w1.invoked = w.invoked ∧ w1.user = w.user := by
  have hf := SetNX_frame env k "" expiration w
  rw [h] at hf
  refine ⟨?_, hf.1, hf.2⟩
  unfold StringKey.GetLocker
  rw [h]
  simp [afterSetNX]

theorem GetLocker_not_acquired_witness :
    (NewStringKey "test5").SetNX calmEnv "" 500000000 heldWorld =
      (.ret (false, none),
        { heldWorld with
          commands := heldWorld.commands ++ [Command.setnx "test5" "" 500000000] }) ∧
    (NewStringKey "test5").GetLocker calmEnv sampleSched Background 500000000
        (countingHandler 0) heldWorld =
      (.ret none,
        { heldWorld with
          commands := heldWorld.commands ++ [Command.setnx "test5" "" 500000000] }) ∧
    heldWorld.invoked = 1 ∧ heldWorld.user = 1 :=
  ⟨rfl, (GetLocker_not_acquired calmEnv sampleSched (NewStringKey "test5") Background
      500000000 (countingHandler 0) heldWorld _ rfl).1, rfl, rfl⟩


/-- C6: when the conditional set fails with the error `e`, `GetLocker` returns
exactly `e` in the world `SetNX` left, in which the handler has not been invoked
and the memory of the caller is untouched. -/
theorem GetLocker_store_error {σ : Type} (env : Env) (sched : Sched) (k : StringKey)
    (ctx : Ctx) (expiration : Int) (handler : Handler σ) (w w1 : World σ) (got : Bool)
    (e : Error) (h : k.SetNX env "" expiration w = (.ret (got, some e), w1)) :
    k.GetLocker env sched ctx expiration handler w = (.ret (some e), w1) ∧
    w1.invoked = w.invoked ∧ w1.user = w.user := by
  have hf := SetNX_frame env k "" expiration w
  rw [h] at hf
  refine ⟨?_, hf.1, hf.2⟩
  unfold StringKey.GetLocker
  rw [h]
  simp [afterSetNX]

theorem GetLocker_store_error_witness :
    ((NewStringKey "test5").SetNX brokenPipe "" 500000000 freshWorld).1 =
      .ret (false, some (.transport "write: broken pipe")) ∧
    ((NewStringKey "test5").GetLocker brokenPipe sampleSched Background 500000000
        (countingHandler 0) freshWorld).1 = .ret (some (.transport "write: broken pipe")) ∧
    ((NewStringKey "test5").GetLocker brokenPipe sampleSched Background 500000000
        (countingHandler 0) freshWorld).2.invoked = 0 :=
  ⟨rfl,
    congrArg Prod.fst (GetLocker_store_error brokenPipe sampleSched (NewStringKey "test5")
      Background 500000000 (countingHandler 0) freshWorld _ false
      (.transport "write: broken pipe") rfl).1,
    rfl⟩


/-! ## The derived context and the select -/

theorem WithTimeout_done_after (ctx : Ctx) (expiration : Int) (sched : Sched) (d : Nat)
    (hdl : (d : Int) < expiration) (hctx : ∀ c e, ctx.done = some (c, e) → d < c) :
    ∃ t e, (WithTimeout ctx expiration sched).done = some (t, e) ∧ d < t := by
  have hown : d < expiration.toNat := by omega
  unfold WithTimeout
  rcases hc : ctx.done with _ | ⟨c, e⟩
  · exact ⟨_, _, rfl, hown⟩
  · have hdc := hctx c e hc
    simp only
    split_ifs
    · exact ⟨_, _, rfl, hdc⟩
    · exact ⟨_, _, rfl, hown⟩
    · exact ⟨_, _, rfl, hdc⟩
    · exact ⟨_, _, rfl, hown⟩

theorem WithTimeout_done_deadline (ctx : Ctx) (expiration : Int) (sched : Sched)
    (hctx : ∀ c e, ctx.done = some (c, e) → expiration.toNat < c ∨ e = .deadlineExceeded) :
    ∃ t, (WithTimeout ctx expiration sched).done = some (t, .deadlineExceeded) ∧
      t ≤ expiration.toNat := by
  unfold WithTimeout
  rcases hc : ctx.done with _ | ⟨c, e⟩
  · exact ⟨_, rfl, le_refl _⟩
  · simp only
    split_ifs with h1 h2 h3
    · rcases hctx c e hc with h | h
      · omega
      · subst h
        exact ⟨c, rfl, by omega⟩
    · exact ⟨_, rfl, le_refl _⟩
    · rcases hctx c e hc with h | h
      · omega
      · subst h
        exact ⟨c, rfl, by omega⟩
    · exact ⟨_, rfl, le_refl _⟩

theorem selectDone_handler_first (d : Nat) (r : Option Error) (ctx : Ctx) (sched : Sched)
    (h : ∃ t e, ctx.done = some (t, e) ∧ d < t) :
    selectDone (some (d, r)) ctx sched = .ret r := by
  obtain ⟨t, e, hdone, hlt⟩ := h
  simp [selectDone, hdone, hlt]

theorem selectDone_context_first (run : HandlerRun) (ctx : Ctx) (sched : Sched) (t : Nat)
    (e : Error) (hdone : ctx.done = some (t, e)) (hlong : run.lastsLongerThan t) :
    selectDone (goroutineSend run) ctx sched = .ret (some e) := by
  cases run with
  | returns d r =>
    have hlt : t < d := hlong
    have hnot : ¬ d < t := by omega
    simp [goroutineSend, selectDone, hdone, hlt, hnot]
  | panics d v =>
    have hlt : t < d := hlong
    have hnot : ¬ d < t := by omega
    cases v with
    | none => simp [goroutineSend, selectDone, hdone]
    | some v => simp [goroutineSend, selectDone, hdone, hlt, hnot]
  | hangs => simp [goroutineSend, selectDone, hdone]

theorem lastsLongerThan_mono (run : HandlerRun) (s t : Nat) (hst : s ≤ t)
    (h : run.lastsLongerThan t) : run.lastsLongerThan s := by
  cases run with
  | returns d r =>
    have : t < d := h
    show s < d
    omega
  | panics d v =>
    have : t < d := h
    show s < d
    omega
  | hangs => trivial

theorem GetLocker_acquired {σ : Type} (env : Env) (sched : Sched) (k : StringKey)
    (ctx : Ctx) (expiration : Int) (handler : Handler σ) (w w1 : World σ)
    (hacq : k.SetNX env "" expiration w = (.ret (true, none), w1)) :
    k.GetLocker env sched ctx expiration handler w =
      lockedSection sched ctx expiration handler w1 := by
  unfold StringKey.GetLocker
  rw [hacq]
  simp [afterSetNX]


/-! ## C3, C4, C5: the handler against the derived context -/

/-- C3, as amended: once the lock was acquired, when the handler returns `r` (nil
or an error) `d` nanoseconds after its start, `d` is before the deadline derived
from the expiry and the ambient context is not done by then, `GetLocker` returns
exactly `r`; the handler has been invoked once. -/
theorem GetLocker_handler_result {σ : Type} (env : Env) (sched : Sched) (k : StringKey)
    (ctx : Ctx) (expiration : Int) (handler : Handler σ) (w w1 : World σ) (d : Nat)
    (r : Option Error) (u : σ)
    (hacq : k.SetNX env "" expiration w = (.ret (true, none), w1))
    (hrun : handler (WithTimeout ctx expiration sched) w1.user = (.returns d r, u))
    (hdl : (d : Int) < expiration)
    (hctx : ∀ c e, ctx.done = some (c, e) → d < c) :
    k.GetLocker env sched ctx expiration handler w =
      (.ret r, { w1 with invoked := w1.invoked + 1, user := u }) := by
  rw [GetLocker_acquired env sched k ctx expiration handler w w1 hacq]
  unfold lockedSection
  simp only [hrun, goroutineSend]
  rw [selectDone_handler_first d r _ sched (WithTimeout_done_after ctx expiration sched d hdl hctx)]

theorem GetLocker_handler_result_witness :
    ((NewStringKey "test5").GetLocker calmEnv sampleSched Background 500000000 quickHandler
        freshWorld).1 = .ret none :=
  congrArg Prod.fst
    (GetLocker_handler_result calmEnv sampleSched (NewStringKey "test5") Background 500000000
      quickHandler freshWorld _ 5 none 0 rfl rfl (by decide)
      (fun _ _ h => nomatch h))

/-- C3 fails as stated: the lock is acquired and the handler returns nil 5 ns
after its start, before the deadline of 10 ns, but the ambient context is
cancelled after 1 ns and `GetLocker` returns `context.Canceled`. -/
theorem GetLocker_handler_result_counterexample :
    ((NewStringKey "test5").SetNX calmEnv "" 10 freshWorld).1 = .ret (true, none) ∧
    quickHandler (WithTimeout cancelledSoon 10 sampleSched) 0 = (.returns 5 none, 0) ∧
    ((5 : Nat) : Int) < 10 ∧
    ((NewStringKey "test5").GetLocker calmEnv sampleSched cancelledSoon 10 quickHandler
        freshWorld).1 = .ret (some .canceled) ∧
    (Outcome.ret (some Error.canceled) : Outcome (Option Error)) ≠ .ret none :=
  ⟨rfl, rfl, by decide, rfl, by decide⟩

/-- C4, as amended: once the lock was acquired, when the handler panics with the
non-nil value `v` `d` nanoseconds after its start, `d` is before the deadline
derived from the expiry and the ambient context is not done by then, `GetLocker`
does not panic: it returns a non-nil error whose message is `handler panic: `
followed by the description of `v`. -/
theorem GetLocker_handler_panic {σ : Type} (env : Env) (sched : Sched) (k : StringKey)
    (ctx : Ctx) (expiration : Int) (handler : Handler σ) (w w1 : World σ) (d : Nat)
    (v : PanicValue) (u : σ)
    (hacq : k.SetNX env "" expiration w = (.ret (true, none), w1))
    (hrun : handler (WithTimeout ctx expiration sched) w1.user = (.panics d (some v), u))
    (hdl : (d : Int) < expiration)
    (hctx : ∀ c e, ctx.done = some (c, e) → d < c) :
    ∃ err : Error,
      k.GetLocker env sched ctx expiration handler w =
        (.ret (some err), { w1 with invoked := w1.invoked + 1, user := u }) ∧
      err.message = "handler panic: " ++ v.describe := by
  refine ⟨.errorf ("handler panic: " ++ v.describe), ?_, rfl⟩
  rw [GetLocker_acquired env sched k ctx expiration handler w w1 hacq]
  unfold lockedSection
  simp only [hrun, goroutineSend]
  rw [selectDone_handler_first d _ _ sched (WithTimeout_done_after ctx expiration sched d hdl hctx)]

theorem GetLocker_handler_panic_witness :
    ∃ err : Error,
      (NewStringKey "test5").GetLocker calmEnv sampleSched Background 500000000 boomHandler
          freshWorld =
        (.ret (some err),
          { ((NewStringKey "test5").SetNX calmEnv "" 500000000 freshWorld).2 with
            invoked := 1, user := 0 }) ∧
      err.message = "handler panic: " ++ (PanicValue.str "boom").describe :=
  GetLocker_handler_panic calmEnv sampleSched (NewStringKey "test5") Background 500000000
    boomHandler freshWorld _ 5 (.str "boom") 0 rfl rfl (by decide) (fun _ _ h => nomatch h)

/-- C4 fails as stated: the lock is acquired and the handler panics with `boom`
5 ns after its start, before the deadline of 10 ns, but the ambient context is
cancelled after 1 ns and `GetLocker` returns `context.Canceled`, whose message
is not `handler panic: boom`. -/
theorem GetLocker_handler_panic_counterexample :
    ((NewStringKey "test5").SetNX calmEnv "" 10 freshWorld).1 = .ret (true, none) ∧
    boomHandler (WithTimeout cancelledSoon 10 sampleSched) 0 =
      (.panics 5 (some (.str "boom")), 0) ∧
    ((5 : Nat) : Int) < 10 ∧
    ((NewStringKey "test5").GetLocker calmEnv sampleSched cancelledSoon 10 boomHandler
        freshWorld).1 = .ret (some .canceled) ∧
    Error.canceled.message ≠ "handler panic: " ++ (PanicValue.str "boom").describe :=
  ⟨rfl, rfl, by decide, rfl, by decide⟩

/-- C5, as amended: for every expiry `T` (positive or not: a timeout that is not
positive is a deadline already reached) and every handler whose run lasts longer
than `T`, once the lock was acquired and unless the ambient context is
cancelled at or before `T` with another error than deadline-exceeded, `GetLocker`
returns `context.DeadlineExceeded`, not what the handler returns later. -/
theorem GetLocker_deadline {σ : Type} (env : Env) (sched : Sched) (k : StringKey)
    (ctx : Ctx) (expiration : Int) (handler : Handler σ) (w w1 : World σ)
    (run : HandlerRun) (u : σ)
    (hacq : k.SetNX env "" expiration w = (.ret (true, none), w1))
    (hrun : handler (WithTimeout ctx expiration sched) w1.user = (run, u))
    (hlong : run.lastsLongerThan expiration.toNat)
    (hctx : ∀ c e, ctx.done = some (c, e) → expiration.toNat < c ∨ e = .deadlineExceeded) :
    k.GetLocker env sched ctx expiration handler w =
      (.ret (some .deadlineExceeded), { w1 with invoked := w1.invoked + 1, user := u }) := by
  obtain ⟨t, hdone, hle⟩ := WithTimeout_done_deadline ctx expiration sched hctx
  rw [GetLocker_acquired env sched k ctx expiration handler w w1 hacq]
  unfold lockedSection
  simp only [hrun]
  rw [selectDone_context_first run _ sched t _ hdone
    (lastsLongerThan_mono run t _ hle hlong)]

theorem GetLocker_deadline_witness :
    ((NewStringKey "test5").GetLocker calmEnv sampleSched Background 10 slowHandler
        freshWorld).1 = .ret (some .deadlineExceeded) :=
  congrArg Prod.fst
    (GetLocker_deadline calmEnv sampleSched (NewStringKey "test5") Background 10 slowHandler
      freshWorld _ (.returns 20 (some (.custom "late"))) 0 rfl rfl
      (by decide) (fun _ _ h => nomatch h))

/-- C5 fails as stated: with the expiry 10 ns and a handler that never returns,
the lock is acquired, the ambient context is cancelled after 1 ns and
`GetLocker` returns `context.Canceled`, not the deadline-exceeded error. -/
theorem GetLocker_deadline_counterexample :
    (0 : Int) < 10 ∧
    ((NewStringKey "test5").SetNX calmEnv "" 10 freshWorld).1 = .ret (true, none) ∧
    stuckHandler (WithTimeout cancelledSoon 10 sampleSched) 0 = (.hangs, 0) ∧
    ((NewStringKey "test5").GetLocker calmEnv sampleSched cancelledSoon 10 stuckHandler
        freshWorld).1 = .ret (some .canceled) ∧
    Error.canceled ≠ Error.deadlineExceeded :=
  ⟨by decide, rfl, rfl, rfl, by decide⟩


/-! ## C7: no unlock -/

theorem setNXOn_acquired {σ : Type} (env : Env) (k : StringKey) (value : String)
    (expiration : Int) (client : Option Client) (w w1 : World σ)
    (h : setNXOn env k value expiration client w = (.ret (true, none), w1)) :
    present w.store k.key = false ∧ w1.store = (k.key, value) :: w.store ∧
    w1.commands = w.commands ++ [Command.setnx k.key value expiration] := by
  unfold setNXOn clientSetNX at h
  cases client with
  | none => simp at h
  | some c =>
    simp only at h
    cases hf : env.fault w.commands.length with
    | some e => simp [hf] at h
    | none =>
      simp only [hf] at h
      cases hp : present w.store k.key with
      | true => simp [hp] at h
      | false =>
        simp [hp] at h
        subst h
        simp

theorem SetNX_acquired {σ : Type} (env : Env) (k : StringKey) (value : String)
    (expiration : Int) (w w1 : World σ)
    (h : k.SetNX env value expiration w = (.ret (true, none), w1)) :
    present w.store k.key = false ∧ w1.store = (k.key, value) :: w.store ∧
    w1.commands = w.commands ++ [Command.setnx k.key value expiration] := by
  have hm := MustGetRedis_frame env w
  unfold StringKey.SetNX at h
  rcases hmg : MustGetRedis env w with ⟨r, w0⟩
  rw [hmg] at h hm
  cases r with
  | ret client =>
    have := setNXOn_acquired env k value expiration client w0 w1 h
    simp only at hm
    rw [hm.2.2.1, hm.2.2.2] at this
    exact this
  | panicked v => simp at h
  | blocked => simp at h

theorem lockedSection_store {σ : Type} (sched : Sched) (ctx : Ctx) (expiration : Int)
    (handler : Handler σ) (w : World σ) :
    (lockedSection sched ctx expiration handler w).2.store = w.store ∧
    (lockedSection sched ctx expiration handler w).2.commands = w.commands ∧
    (lockedSection sched ctx expiration handler w).2.invoked = w.invoked + 1 := by
  unfold lockedSection
  exact ⟨rfl, rfl, rfl⟩

theorem GetLocker_not_invoked_of_present {σ : Type} (env : Env) (sched : Sched)
    (k : StringKey) (ctx : Ctx) (expiration : Int) (handler : Handler σ) (w : World σ)
    (hp : present w.store k.key = true) :
    (k.GetLocker env sched ctx expiration handler w).2.invoked = w.invoked ∧
    (k.GetLocker env sched ctx expiration handler w).2.user = w.user := by
  have hf := SetNX_frame env k "" expiration w
  unfold StringKey.GetLocker
  rcases hs : k.SetNX env "" expiration w with ⟨r, w1⟩
  rw [hs] at hf
  simp only at hf ⊢
  cases r with
  | ret p =>
    rcases p with ⟨got, err⟩
    cases err with
    | some e => simpa [afterSetNX] using hf
    | none =>
      cases got with
      | false => simpa [afterSetNX] using hf
      | true =>
        have := (SetNX_acquired env k "" expiration w w1 hs).1
        rw [hp] at this
        cases this
  | panicked v => simpa [afterSetNX] using hf
  | blocked => simpa [afterSetNX] using hf

theorem present_cons_self (store : List (String × String)) (key value : String) :
    present ((key, value) :: store) key = true := by
  simp [present, List.lookup]

theorem present_expire_self (store : List (String × String)) (key : String) :
    present (store.filter (fun kv => kv.1 != key)) key = false := by
  induction store with
  | nil => rfl
  | cons kv rest ih =>
    rcases kv with ⟨k1, v1⟩
    by_cases hk : k1 = key
    · subst hk
      simpa [List.filter] using ih
    · have hb : (k1 != key) = true := by simpa using hk
      have hne : (key == k1) = false := by simpa using fun e : key = k1 => hk e.symm
      simp only [List.filter, hb]
      simp only [present, List.lookup, hne]
      exact ih

theorem ttlElapsed_at_deadline (expiration : Int) (elapsed : Nat)
    (hms : 1000000 ≤ expiration) (hel : expiration.toNat ≤ elapsed) :
    ttlElapsed expiration elapsed = true := by
  have h1 : ¬ expiration ≤ 0 := by omega
  have h2 : ¬ expiration < 1000000 := by omega
  have h3 : expiration.toNat / 1000000 * 1000000 ≤ elapsed :=
    Nat.le_trans (Nat.div_mul_le_self _ _) hel
  simp [ttlElapsed, storeTTL, h1, h2, h3]

/-- C7, as amended: `GetLocker` performs no unlock.  After a successful
acquisition the call returns what `GetLocker` returns and the only command the
store has received from it is the single conditional set.  When the time-to-live
of the key has not run out at the instant of the return (the handler's result or
a cancellation arrived before it, or the expiry is 0), the store differs from
the one before the call by the lock key alone, which is present; when it has run
out, as at every return on the deadline of an expiry of one millisecond or more,
the store has expired the key and it is absent.  In every later world in which
the store still holds the key, a further `GetLocker` on that key does not invoke
its handler. -/
theorem GetLocker_no_unlock {σ : Type} (env : Env) (sched : Sched) (k : StringKey)
    (ctx : Ctx) (expiration : Int) (handler : Handler σ) (gap : Nat) (w w1 : World σ)
    (hacq : k.SetNX env "" expiration w = (.ret (true, none), w1)) :
    (k.GetLockerTimed env sched ctx expiration handler gap w).1 =
      (k.GetLocker env sched ctx expiration handler w).1 ∧
    (k.GetLockerTimed env sched ctx expiration handler gap w).2.commands =
      w.commands ++ [Command.setnx k.key "" expiration] ∧
    (ttlElapsed expiration (gap + returnInstant sched ctx expiration handler w1) = false →
      (k.GetLockerTimed env sched ctx expiration handler gap w).2.store =
        (k.key, "") :: w.store ∧
      present (k.GetLockerTimed env sched ctx expiration handler gap w).2.store k.key = true) ∧
    (ttlElapsed expiration (gap + returnInstant sched ctx expiration handler w1) = true →
      present (k.GetLockerTimed env sched ctx expiration handler gap w).2.store k.key =
        false) ∧
    (1000000 ≤ expiration →
      expiration.toNat ≤ returnInstant sched ctx expiration handler w1 →
      present (k.GetLockerTimed env sched ctx expiration handler gap w).2.store k.key =
        false) ∧
    ∀ (env2 : Env) (sched2 : Sched) (ctx2 : Ctx) (expiration2 : Int) (handler2 : Handler σ)
      (w3 : World σ), present w3.store k.key = true →
      (k.GetLocker env2 sched2 ctx2 expiration2 handler2 w3).2.invoked = w3.invoked ∧
      (k.GetLocker env2 sched2 ctx2 expiration2 handler2 w3).2.user = w3.user := by
  obtain ⟨_, hstore, hcmd⟩ := SetNX_acquired env k "" expiration w w1 hacq
  have hl := lockedSection_store sched ctx expiration handler w1
  have hplain := GetLocker_acquired env sched k ctx expiration handler w w1 hacq
  have hlive : ttlElapsed expiration (gap + returnInstant sched ctx expiration handler w1)
      = false →
      k.GetLockerTimed env sched ctx expiration handler gap w =
        lockedSection sched ctx expiration handler w1 := by
    intro h
    simp only [StringKey.GetLockerTimed, hacq, h, Bool.false_eq_true, if_false]
  have hdead : ttlElapsed expiration (gap + returnInstant sched ctx expiration handler w1)
      = true →
      k.GetLockerTimed env sched ctx expiration handler gap w =
        ((lockedSection sched ctx expiration handler w1).1,
          (lockedSection sched ctx expiration handler w1).2.expire k.key) := by
    intro h
    simp only [StringKey.GetLockerTimed, hacq, h, if_true]
  have habsent : ttlElapsed expiration (gap + returnInstant sched ctx expiration handler w1)
      = true →
      present (k.GetLockerTimed env sched ctx expiration handler gap w).2.store k.key =
        false := by
    intro h
    rw [hdead h]
    exact present_expire_self _ _
  refine ⟨?_, ?_, ?_, habsent, ?_, ?_⟩
  · rw [hplain]
    cases h : ttlElapsed expiration (gap + returnInstant sched ctx expiration handler w1)
    · rw [hlive h]
    · rw [hdead h]
  · cases h : ttlElapsed expiration (gap + returnInstant sched ctx expiration handler w1)
    · rw [hlive h]
      exact hl.2.1.trans hcmd
    · rw [hdead h]
      exact hl.2.1.trans hcmd
  · intro h
    rw [hlive h]
    refine ⟨hl.1.trans hstore, ?_⟩
    rw [hl.1, hstore]
    exact present_cons_self _ _ _
  · intro hms hret
    exact habsent (ttlElapsed_at_deadline expiration _ hms (by omega))
  · intro env2 sched2 ctx2 expiration2 handler2 w3 hp
    exact GetLocker_not_invoked_of_present env2 sched2 k ctx2 expiration2 handler2 w3 hp

theorem GetLocker_no_unlock_witness :
    ((NewStringKey "test5").GetLockerTimed calmEnv sampleSched Background 500000000
        boomHandler 0 freshWorld).2.commands = [Command.setnx "test5" "" 500000000] ∧
    ((NewStringKey "test5").GetLockerTimed calmEnv sampleSched Background 500000000
        boomHandler 0 freshWorld).2.store = [("test5", "")] ∧
    present ((NewStringKey "test5").GetLockerTimed calmEnv sampleSched Background 500000000
        boomHandler 0 freshWorld).2.store "test5" = true ∧
    ((NewStringKey "test5").GetLocker calmEnv sampleSched Background 500000000
        (countingHandler 0)
        ((NewStringKey "test5").GetLockerTimed calmEnv sampleSched Background 500000000
          boomHandler 0 freshWorld).2).2.invoked = 1 :=
  have h := GetLocker_no_unlock calmEnv sampleSched (NewStringKey "test5") Background
    500000000 boomHandler 0 freshWorld _ rfl
  ⟨h.2.1, (h.2.2.1 rfl).1, (h.2.2.1 rfl).2,
    (h.2.2.2.2.2 calmEnv sampleSched Background 500000000 (countingHandler 0) _
      (h.2.2.1 rfl).2).1⟩

/-- C7 fails as stated at a return on the deadline.  Under `context.Background()`
with the expiry 500 ms and a handler that never returns, the lock is acquired,
`GetLocker` returns `context.DeadlineExceeded` 500 ms after it derived its
context, and has sent the conditional set only; the time-to-live the store
started with that set has run out, and the key is absent. -/
theorem GetLocker_no_unlock_counterexample :
    ((NewStringKey "test5").SetNX calmEnv "" 500000000 freshWorld).1 = .ret (true, none) ∧
    returnInstant sampleSched Background 500000000 stuckHandler
      ((NewStringKey "test5").SetNX calmEnv "" 500000000 freshWorld).2 = 500000000 ∧
    ((NewStringKey "test5").GetLockerTimed calmEnv sampleSched Background 500000000
        stuckHandler 0 freshWorld).1 = .ret (some .deadlineExceeded) ∧
    ((NewStringKey "test5").GetLockerTimed calmEnv sampleSched Background 500000000
        stuckHandler 0 freshWorld).2.commands = [Command.setnx "test5" "" 500000000] ∧
    present ((NewStringKey "test5").GetLockerTimed calmEnv sampleSched Background 500000000
        stuckHandler 0 freshWorld).2.store "test5" = false :=
  ⟨rfl, by decide, rfl, rfl, by decide⟩


/-! ## C8, C9, C10: the connection manager -/

theorem GetRedisTimes_cached {σ : Type} (env : Env) (n : Nat) (w : World σ) (c : Client)
    (h : w.globalRedisClient = some c) :
    GetRedisTimes env n w = (List.replicate n (some c, none), w) := by
  induction n with
  | zero => rfl
  | succ n ih =>
    have hg : GetRedis env w = ((some c, none), w) := by
      unfold GetRedis
      rw [h]
    simp only [GetRedisTimes, hg, ih, List.replicate_succ]

theorem GetRedisTimes_undefined {σ : Type} (env : Env) (n : Nat) (w : World σ)
    (hc : w.globalRedisClient = none) (ho : w.globalOption = none) :
    GetRedisTimes env n w = (List.replicate n (none, some .ErrConfigUndefined), w) := by
  induction n with
  | zero => rfl
  | succ n ih =>
    have hg : GetRedis env w = ((none, some .ErrConfigUndefined), w) := by
      unfold GetRedis
      rw [hc, ho]
    simp only [GetRedisTimes, hg, ih, List.replicate_succ]

theorem GetRedis_connect {σ : Type} (env : Env) (w : World σ) (opt : Options)
    (hc : w.globalRedisClient = none) (ho : w.globalOption = some opt)
    (hp : env.ping w.pings = none) :
    GetRedis env w =
      ((some ⟨w.newClients, opt⟩, none),
        { w with newClients := w.newClients + 1, pings := w.pings + 1,
                 globalRedisClient := some ⟨w.newClients, opt⟩ }) := by
  unfold GetRedis
  simp only [hc, ho, hp]

theorem GetRedis_refused {σ : Type} (env : Env) (w : World σ) (opt : Options) (e : Error)
    (hc : w.globalRedisClient = none) (ho : w.globalOption = some opt)
    (hp : env.ping w.pings = some e) :
    GetRedis env w =
      ((none, some e), { w with newClients := w.newClients + 1, pings := w.pings + 1 }) := by
  unfold GetRedis
  simp only [hc, ho, hp]

/-- C8: for `n ≥ 1` successive calls of `GetRedis` from an empty cache: with a
configuration supplied and the liveness probe succeeding, every call returns the
same handle with a nil error and exactly one client has been constructed and
exactly one probe sent; with no configuration supplied, every call returns an
error (`ErrConfigUndefined`) and nothing is constructed or probed. -/
theorem GetRedis_singleton {σ : Type} (env : Env) (w : World σ) (n : Nat) (hn : 1 ≤ n)
    (hc : w.globalRedisClient = none) :
    (∀ opt, w.globalOption = some opt → env.ping w.pings = none →
      (GetRedisTimes env n w).1 = List.replicate n (some ⟨w.newClients, opt⟩, none) ∧
      (GetRedisTimes env n w).2.newClients = w.newClients + 1 ∧
      (GetRedisTimes env n w).2.pings = w.pings + 1) ∧
    (w.globalOption = none →
      (GetRedisTimes env n w).1 = List.replicate n (none, some .ErrConfigUndefined) ∧
      (GetRedisTimes env n w).2.newClients = w.newClients ∧
      (GetRedisTimes env n w).2.pings = w.pings) := by
  constructor
  · intro opt ho hp
    obtain ⟨m, rfl⟩ : ∃ m, n = m + 1 := ⟨n - 1, by omega⟩
    have hg := GetRedis_connect env w opt hc ho hp
    simp only [GetRedisTimes, hg]
    rw [GetRedisTimes_cached env m _ ⟨w.newClients, opt⟩ rfl]
    simp [List.replicate_succ]
  · intro ho
    rw [GetRedisTimes_undefined env n w hc ho]
    exact ⟨rfl, rfl, rfl⟩

theorem GetRedis_singleton_witness :
    ((GetRedisTimes calmEnv 3 freshWorld).1 =
        [(some ⟨0, testOptions⟩, none), (some ⟨0, testOptions⟩, none),
          (some ⟨0, testOptions⟩, none)] ∧
      (GetRedisTimes calmEnv 3 freshWorld).2.newClients = 1 ∧
      (GetRedisTimes calmEnv 3 freshWorld).2.pings = 1) ∧
    (GetRedisTimes calmEnv 3 bareWorld).1 =
      [(none, some .ErrConfigUndefined), (none, some .ErrConfigUndefined),
        (none, some .ErrConfigUndefined)] :=
  ⟨(GetRedis_singleton calmEnv freshWorld 3 (by decide) rfl).1 testOptions rfl rfl,
    ((GetRedis_singleton calmEnv bareWorld 3 (by decide) rfl).2 rfl).1⟩

/-- C9: when a cached handle exists, `GetRedis` returns it with a nil error and
leaves the world as it is (no client constructed, no probe sent), whatever the
configuration is: also after `SetConfig` replaced it, by nil or by another
value. -/
theorem GetRedis_cached {σ : Type} (env : Env) (w : World σ) (c : Client)
    (h : w.globalRedisClient = some c) :
    GetRedis env w = ((some c, none), w) ∧
    ∀ cfg : Option Options,
      GetRedis env (SetConfig cfg w) = ((some c, none), SetConfig cfg w) ∧
      (GetRedis env (SetConfig cfg w)).2.newClients = w.newClients ∧
      (GetRedis env (SetConfig cfg w)).2.pings = w.pings := by
  have key : ∀ w2 : World σ, w2.globalRedisClient = some c →
      GetRedis env w2 = ((some c, none), w2) := by
    intro w2 h2
    unfold GetRedis
    rw [h2]
  refine ⟨key w h, fun cfg => ?_⟩
  have h2 : (SetConfig cfg w).globalRedisClient = some c := h
  rw [key _ h2]
  exact ⟨rfl, rfl, rfl⟩

theorem GetRedis_cached_witness :
    GetRedis lateServer heldWorld = ((some ⟨0, testOptions⟩, none), heldWorld) ∧
    (GetRedis lateServer (SetConfig none heldWorld)).1 = (some ⟨0, testOptions⟩, none) ∧
    (GetRedis lateServer (SetConfig none heldWorld)).2.pings = 1 :=
  have h := GetRedis_cached lateServer heldWorld ⟨0, testOptions⟩ rfl
  ⟨h.1, congrArg Prod.fst (h.2 none).1, (h.2 none).2.2⟩

/-- C10: when the cache is empty, a configuration is supplied and the liveness
probe of the newly constructed client fails with `e`, `GetRedis` returns
`(nil, e)` and leaves the cache empty and the configuration in place; the next
call constructs a client and probes again, and if that probe succeeds it returns
the new handle with a nil error and caches it. -/
theorem GetRedis_probe_failure {σ : Type} (env : Env) (w : World σ) (opt : Options)
    (e : Error) (hc : w.globalRedisClient = none) (ho : w.globalOption = some opt)
    (hp : env.ping w.pings = some e) :
    (GetRedis env w).1 = (none, some e) ∧
    (GetRedis env w).2.globalRedisClient = none ∧
    (GetRedis env w).2.globalOption = some opt ∧
    (GetRedis env (GetRedis env w).2).2.newClients = w.newClients + 2 ∧
    (GetRedis env (GetRedis env w).2).2.pings = w.pings + 2 ∧
    (env.ping (w.pings + 1) = none →
      (GetRedis env (GetRedis env w).2).1 = (some ⟨w.newClients + 1, opt⟩, none) ∧
      (GetRedis env (GetRedis env w).2).2.globalRedisClient =
        some ⟨w.newClients + 1, opt⟩) := by
  rw [GetRedis_refused env w opt e hc ho hp]
  refine ⟨rfl, hc, ho, ?_, ?_, ?_⟩
  · unfold GetRedis
    simp only [hc, ho]
    cases env.ping (w.pings + 1) <;> rfl
  · unfold GetRedis
    simp only [hc, ho]
    cases env.ping (w.pings + 1) <;> rfl
  · intro hp2
    unfold GetRedis
    simp [hc, ho, hp2]

theorem GetRedis_probe_failure_witness :
    (GetRedis lateServer freshWorld).1 =
      (none, some (.transport "dial tcp: connection refused")) ∧
    (GetRedis lateServer freshWorld).2.globalRedisClient = none ∧
    (GetRedis lateServer (GetRedis lateServer freshWorld).2).1 =
      (some ⟨1, testOptions⟩, none) ∧
    (GetRedis lateServer (GetRedis lateServer freshWorld).2).2.globalRedisClient =
      some ⟨1, testOptions⟩ :=
  have h := GetRedis_probe_failure lateServer freshWorld testOptions
    (.transport "dial tcp: connection refused") rfl rfl rfl
  ⟨h.1, h.2.1, (h.2.2.2.2.2 rfl).1, (h.2.2.2.2.2 rfl).2⟩


/-! ## C2: mutual exclusion among concurrent attempts -/

theorem MustGetRedis_connectable {σ : Type} (env : Env) (w : World σ)
    (hping : ∀ n, env.ping n = none) (hw : connectable w) :
    ∃ c w1, MustGetRedis env w = (.ret (some c), w1) ∧ w1.globalRedisClient = some c ∧
      w1.store = w.store ∧ w1.invoked = w.invoked ∧ w1.user = w.user := by
  unfold MustGetRedis GetRedis
  rcases hc : w.globalRedisClient with _ | c
  · rcases ho : w.globalOption with _ | opt
    · rcases hw with h | h
      · rw [hc] at h
        cases h
      · rw [ho] at h
        cases h
    · simp only [hping]
      exact ⟨_, _, rfl, rfl, rfl, rfl, rfl⟩
  · exact ⟨c, w, rfl, hc, rfl, rfl, rfl⟩

theorem setNXOn_answered {σ : Type} (env : Env) (k : StringKey) (value : String)
    (expiration : Int) (c : Client) (w : World σ) (hfault : ∀ n, env.fault n = none) :
    (present w.store k.key = true ∧
      ∃ w1, setNXOn env k value expiration (some c) w = (.ret (false, none), w1) ∧
        w1.globalRedisClient = w.globalRedisClient ∧ w1.globalOption = w.globalOption ∧
        w1.store = w.store ∧ w1.invoked = w.invoked ∧ w1.user = w.user) ∨
    (present w.store k.key = false ∧
      ∃ w1, setNXOn env k value expiration (some c) w = (.ret (true, none), w1) ∧
        w1.globalRedisClient = w.globalRedisClient ∧ w1.globalOption = w.globalOption ∧
        w1.store = (k.key, value) :: w.store ∧ w1.invoked = w.invoked ∧
        w1.user = w.user) := by
  unfold setNXOn clientSetNX
  simp only [hfault]
  cases hp : present w.store k.key with
  | true =>
    left
    simp only [if_true]
    exact ⟨trivial, _, rfl, rfl, rfl, rfl, rfl, rfl⟩
  | false =>
    right
    simp only [Bool.false_eq_true, if_false]
    exact ⟨trivial, _, rfl, rfl, rfl, rfl, rfl, rfl⟩


theorem stepAttempt_spec (env : Env) (k : StringKey) (expiration : Int) (d : Nat)
    (a : Attempt) (w : World Nat) (hping : ∀ n, env.ping n = none)
    (hfault : ∀ n, env.fault n = none) (hw : connectable w) (ha : a.sound expiration d) :
    ∃ a1 w1, stepAttempt env k expiration (countingHandler d) a w = (a1, w1) ∧
      connectable w1 ∧ a1.sound expiration d ∧
      ((a.pc = .start ∧ a1.pc.stage = 1 ∧ w1.store = w.store ∧ w1.invoked = w.invoked ∧
          w1.user = w.user) ∨
        (a.pc.stage = 1 ∧ present w.store k.key = true ∧ a1.pc = .finished (.ret none) ∧
          w1.store = w.store ∧ w1.invoked = w.invoked ∧ w1.user = w.user) ∨
        (a.pc.stage = 1 ∧ present w.store k.key = false ∧ a1.pc = .locked ∧
          w1.store = (k.key, "") :: w.store ∧ w1.invoked = w.invoked ∧ w1.user = w.user) ∨
        (a.pc = .locked ∧ a1.pc.isFinished = true ∧ w1.store = w.store ∧
          w1.invoked = w.invoked + 1 ∧ w1.user = w.user + 1) ∨
        (a.pc.isFinished = true ∧ a1 = a ∧ w1 = w)) := by
  rcases a with ⟨ctx, sched, pc⟩
  cases pc with
  | start =>
    obtain ⟨c, w1, hm, hc, hs, hi, hu⟩ := MustGetRedis_connectable env w hping hw
    refine ⟨⟨ctx, sched, .connected (some c)⟩, w1, ?_, ?_, ?_, ?_⟩
    · simp [stepAttempt, hm]
    · left
      rw [hc]
      rfl
    · show (some c).isSome = true
      rfl
    · left
      exact ⟨rfl, rfl, hs, hi, hu⟩
  | connected client =>
    have hcl : client.isSome = true := ha
    obtain ⟨c, rfl⟩ : ∃ c, client = some c := Option.isSome_iff_exists.mp hcl
    rcases setNXOn_answered env k "" expiration c w hfault with
      ⟨hp, w1, hs, hg, ho, hst, hi, hu⟩ | ⟨hp, w1, hs, hg, ho, hst, hi, hu⟩
    · refine ⟨⟨ctx, sched, .finished (.ret none)⟩, w1, ?_, ?_, ?_, ?_⟩
      · simp [stepAttempt, hs]
      · unfold connectable
        rw [hg, ho]
        exact hw
      · exact Or.inl rfl
      · right; left
        exact ⟨rfl, hp, rfl, hst, hi, hu⟩
    · refine ⟨⟨ctx, sched, .locked⟩, w1, ?_, ?_, ?_, ?_⟩
      · simp [stepAttempt, hs]
      · unfold connectable
        rw [hg, ho]
        exact hw
      · trivial
      · right; right; left
        exact ⟨rfl, hp, rfl, hst, hi, hu⟩
  | locked =>
    refine ⟨⟨ctx, sched, .finished (winnerResult expiration d ⟨ctx, sched, .locked⟩)⟩,
      { w with invoked := w.invoked + 1, user := w.user + 1 }, ?_, ?_, ?_, ?_⟩
    · rfl
    · exact hw
    · exact Or.inr rfl
    · right; right; right; left
      exact ⟨rfl, rfl, rfl, rfl, rfl⟩
  | finished r =>
    refine ⟨⟨ctx, sched, .finished r⟩, w, rfl, hw, ha, ?_⟩
    right; right; right; right
    exact ⟨rfl, rfl, rfl⟩

theorem getElem?_set_cases {α : Type} (l : List α) (i j : Nat) (a b : α)
    (h : (l.set i a)[j]? = some b) : (j = i ∧ b = a) ∨ (j ≠ i ∧ l[j]? = some b) := by
  rw [List.getElem?_set] at h
  by_cases hij : i = j
  · subst hij
    simp only [if_true] at h
    split_ifs at h
    left
    exact ⟨rfl, (Option.some.inj h).symm⟩
  · simp only [hij, if_false] at h
    right
    exact ⟨fun e => hij e.symm, h⟩

theorem getElem?_set_at {α : Type} (l : List α) (i : Nat) (a a1 : α)
    (h : l[i]? = some a) : (l.set i a1)[i]? = some a1 := by
  obtain ⟨hlt, _⟩ := List.getElem?_eq_some.mp h
  exact List.getElem?_set_self hlt

theorem set_same {α : Type} (l : List α) (i : Nat) (a : α) (h : l[i]? = some a) :
    l.set i a = l := by
  induction l generalizing i with
  | nil => rfl
  | cons x rest ih =>
    cases i with
    | zero =>
      have hx : x = a := by simpa using h
      rw [hx]
      rfl
    | succ n =>
      have hn : rest[n]? = some a := by simpa using h
      simp only [List.set, ih n hn]

theorem present_expire_ne (store : List (String × String)) (key other : String)
    (h : other ≠ key) :
    present (store.filter (fun kv => kv.1 != other)) key = present store key := by
  induction store with
  | nil => rfl
  | cons kv rest ih =>
    rcases kv with ⟨k1, v1⟩
    by_cases hk : k1 = other
    · subst hk
      have hne : (key == k1) = false := by simpa using fun e : key = k1 => h e.symm
      simp only [List.filter, bne_self_eq_false]
      rw [ih]
      simp [present, List.lookup, hne]
    · have hb : (k1 != other) = true := by simpa using hk
      simp only [List.filter, hb]
      by_cases hkk : key = k1
      · subst hkk
        simp [present, List.lookup]
      · have hne : (key == k1) = false := by simpa using hkk
        simp only [present, List.lookup, hne]
        exact ih


theorem stage_of_locked (pc : Pc) (h : pc = .locked) : pc.stage = 2 := by
  subst h
  rfl

theorem stage_of_finished (pc : Pc) (h : pc.isFinished = true) : pc.stage = 3 := by
  cases pc <;> simp_all [Pc.isFinished, Pc.stage]

theorem finished_of_stage (pc : Pc) (h : 3 ≤ pc.stage) : pc.isFinished = true := by
  cases pc <;> simp_all [Pc.isFinished, Pc.stage]

theorem Exclusion_step_run (env : Env) (k : StringKey) (expiration : Int) (d i0 : Nat)
    (s : System Nat) (i : Nat) (a : Attempt) (hping : ∀ n, env.ping n = none)
    (hfault : ∀ n, env.fault n = none) (hget : s.attempts[i]? = some a)
    (hinv : Invariant k expiration d i0 s) :
    Invariant k expiration d i0
      (System.step env k expiration (countingHandler d) s (.run i)) := by
  obtain ⟨hconn, hsound, hexcl⟩ := hinv
  obtain ⟨a1, w1, hstep, hconn1, hsound1, hcase⟩ :=
    stepAttempt_spec env k expiration d a s.world hping hfault hconn (hsound i a hget)
  have hnew : System.step env k expiration (countingHandler d) s (.run i) =
      { world := w1, attempts := s.attempts.set i a1 } := by
    simp only [System.step, hget, hstep]
  rw [hnew]
  have hat : (s.attempts.set i a1)[i]? = some a1 := getElem?_set_at _ _ _ _ hget
  have hcs : ∀ (j : Nat) (b : Attempt), (s.attempts.set i a1)[j]? = some b →
      (j = i ∧ b = a1) ∨ (j ≠ i ∧ s.attempts[j]? = some b) :=
    fun j b hb => getElem?_set_cases _ _ _ _ _ hb
  refine ⟨hconn1, ?_, ?_⟩
  · intro j b hb
    rcases hcs j b hb with ⟨_, rfl⟩ | ⟨_, hold⟩
    · exact hsound1
    · exact hsound j b hold
  · rcases hcase with ⟨hpc, hst1, hs, hi, hu⟩ | ⟨hpc, hp, hpc1, hs, hi, hu⟩ |
      ⟨hpc, hp, hpc1, hs, hi, hu⟩ | ⟨hpc, hfin, hs, hi, hu⟩ | ⟨hfin, rfl, rfl⟩
    · -- start, then connected
      have hst0 : a.pc.stage = 0 := by rw [hpc]; rfl
      rcases hexcl with ⟨p, pi, pu, hall⟩ | ⟨p, pi, pu, j0, ⟨a0, hj0, hl0⟩, huniq⟩ |
        ⟨p, pi, pu, hall⟩
      · left
        refine ⟨by simpa [hs] using p, hi.trans pi, hu.trans pu, ?_⟩
        intro j b hb
        rcases hcs j b hb with ⟨_, rfl⟩ | ⟨_, hold⟩
        · omega
        · exact hall j b hold
      · right; left
        have hne : i ≠ j0 := by
          intro e
          subst e
          rw [hget] at hj0
          cases hj0
          rw [hpc] at hl0
          cases hl0
        refine ⟨by simpa [hs] using p, hi.trans pi, hu.trans pu, j0,
          ⟨a0, by simpa [List.getElem?_set_ne hne] using hj0, hl0⟩, ?_⟩
        intro j b hb hlb
        rcases hcs j b hb with ⟨_, rfl⟩ | ⟨_, hold⟩
        · have := stage_of_locked _ hlb
          omega
        · exact huniq j b hold hlb
      · right; right
        refine ⟨by simpa [hs] using p, hi.trans pi, hu.trans pu, ?_⟩
        intro j b hb hlb
        rcases hcs j b hb with ⟨_, rfl⟩ | ⟨_, hold⟩
        · have := stage_of_locked _ hlb
          omega
        · exact hall j b hold hlb
    · -- connected, key held: returns nil
      rcases hexcl with ⟨p, pi, pu, hall⟩ | ⟨p, pi, pu, j0, ⟨a0, hj0, hl0⟩, huniq⟩ |
        ⟨p, pi, pu, hall⟩
      · rw [hp] at p
        cases p
      · right; left
        have hne : i ≠ j0 := by
          intro e
          subst e
          rw [hget] at hj0
          cases hj0
          have := stage_of_locked _ hl0
          omega
        refine ⟨by simpa [hs] using p, hi.trans pi, hu.trans pu, j0,
          ⟨a0, by simpa [List.getElem?_set_ne hne] using hj0, hl0⟩, ?_⟩
        intro j b hb hlb
        rcases hcs j b hb with ⟨_, rfl⟩ | ⟨_, hold⟩
        · rw [hpc1] at hlb
          cases hlb
        · exact huniq j b hold hlb
      · right; right
        refine ⟨by simpa [hs] using p, hi.trans pi, hu.trans pu, ?_⟩
        intro j b hb hlb
        rcases hcs j b hb with ⟨_, rfl⟩ | ⟨_, hold⟩
        · rw [hpc1] at hlb
          cases hlb
        · exact hall j b hold hlb
    · -- connected, key free: acquires
      rcases hexcl with ⟨p, pi, pu, hall⟩ | ⟨p, pi, pu, j0, ⟨a0, hj0, hl0⟩, huniq⟩ |
        ⟨p, pi, pu, hall⟩
      · right; left
        refine ⟨by rw [hs]; exact present_cons_self _ _ _, hi.trans pi, hu.trans pu, i,
          ⟨a1, hat, hpc1⟩, ?_⟩
        intro j b hb hlb
        rcases hcs j b hb with ⟨hj, _⟩ | ⟨_, hold⟩
        · exact hj
        · have h1 := hall j b hold
          have h2 := stage_of_locked _ hlb
          omega
      · rw [hp] at p
        cases p
      · rw [hp] at p
        cases p
    · -- locked: the handler runs
      have hst2 : a.pc.stage = 2 := stage_of_locked _ hpc
      have hnl : a1.pc ≠ .locked := by
        intro e
        have h3 := stage_of_finished _ hfin
        have h2 := stage_of_locked _ e
        omega
      rcases hexcl with ⟨p, pi, pu, hall⟩ | ⟨p, pi, pu, j0, ⟨a0, hj0, hl0⟩, huniq⟩ |
        ⟨p, pi, pu, hall⟩
      · have := hall i a hget
        omega
      · right; right
        have hij : i = j0 := huniq i a hget hpc
        refine ⟨by simpa [hs] using p, by rw [← pi]; exact hi,
          by show w1.user = 1; rw [hu, pu], ?_⟩
        intro j b hb hlb
        rcases hcs j b hb with ⟨_, rfl⟩ | ⟨hj, hold⟩
        · exact hnl hlb
        · exact hj ((huniq j b hold hlb).trans hij.symm)
      · exact absurd hpc (hall i a hget)
    · -- returned already
      rw [set_same _ _ _ hget]
      exact hexcl

theorem Invariant_step (env : Env) (k : StringKey) (expiration : Int) (d i0 : Nat)
    (s : System Nat) (ev : Event) (hping : ∀ n, env.ping n = none)
    (hfault : ∀ n, env.fault n = none) (hev : ev ≠ .expire k.key)
    (hinv : Invariant k expiration d i0 s) :
    Invariant k expiration d i0 (System.step env k expiration (countingHandler d) s ev) := by
  cases ev with
  | run i =>
    cases hget : s.attempts[i]? with
    | none =>
      have : System.step env k expiration (countingHandler d) s (.run i) = s := by
        simp only [System.step, hget]
      rw [this]
      exact hinv
    | some a => exact Exclusion_step_run env k expiration d i0 s i a hping hfault hget hinv
  | expire key =>
    have hne : key ≠ k.key := fun e => hev (by rw [e])
    obtain ⟨hconn, hsound, hexcl⟩ := hinv
    have hp : present (s.world.expire key).store k.key = present s.world.store k.key :=
      present_expire_ne _ _ _ hne
    refine ⟨hconn, hsound, ?_⟩
    unfold Exclusion at hexcl ⊢
    simp only [System.step]
    rw [hp]
    exact hexcl

theorem Invariant_run (env : Env) (k : StringKey) (expiration : Int) (d i0 : Nat)
    (evs : List Event) (s : System Nat) (hping : ∀ n, env.ping n = none)
    (hfault : ∀ n, env.fault n = none) (hev : ∀ ev ∈ evs, ev ≠ .expire k.key)
    (hinv : Invariant k expiration d i0 s) :
    Invariant k expiration d i0 (System.run env k expiration (countingHandler d) s evs) := by
  induction evs generalizing s with
  | nil => exact hinv
  | cons ev rest ih =>
    have h1 := Invariant_step env k expiration d i0 s ev hping hfault
      (hev ev (List.mem_cons_self _ _)) hinv
    exact ih _ (fun e he => hev e (List.mem_cons_of_mem _ he)) h1


/-! ### Every attempt returns -/

theorem stepAttempt_progress {σ : Type} (env : Env) (k : StringKey) (expiration : Int)
    (handler : Handler σ) (a : Attempt) (w : World σ) :
    min 3 (a.pc.stage + 1) ≤ (stepAttempt env k expiration handler a w).1.pc.stage ∧
    (stepAttempt env k expiration handler a w).1.ctx = a.ctx ∧
    (stepAttempt env k expiration handler a w).1.sched = a.sched := by
  rcases a with ⟨ctx, sched, pc⟩
  cases pc with
  | start =>
    unfold stepAttempt
    simp only
    rcases MustGetRedis env w with ⟨r, w1⟩
    cases r <;> simp [Pc.stage]
  | connected client =>
    unfold stepAttempt
    simp only
    rcases setNXOn env k "" expiration client w with ⟨r, w1⟩
    cases r with
    | ret p =>
      rcases p with ⟨got, err⟩
      cases err with
      | some e => simp [Pc.stage]
      | none => cases got <;> simp [Pc.stage]
    | panicked v => simp [Pc.stage]
    | blocked => simp [Pc.stage]
  | locked =>
    unfold stepAttempt
    simp [Pc.stage]
  | finished r =>
    unfold stepAttempt
    simp [Pc.stage]

theorem run_progress {σ : Type} (env : Env) (k : StringKey) (expiration : Int)
    (handler : Handler σ) (evs : List Event) (s : System σ) (j : Nat) (a : Attempt)
    (h : s.attempts[j]? = some a) :
    ∃ b, (System.run env k expiration handler s evs).attempts[j]? = some b ∧
      min 3 (a.pc.stage + evs.count (.run j)) ≤ b.pc.stage ∧ b.ctx = a.ctx ∧
      b.sched = a.sched := by
  induction evs generalizing s a with
  | nil => exact ⟨a, h, by simp, rfl, rfl⟩
  | cons ev rest ih =>
    have hrun : System.run env k expiration handler s (ev :: rest) =
        System.run env k expiration handler (System.step env k expiration handler s ev) rest :=
      rfl
    rw [hrun]
    cases ev with
    | expire key =>
      obtain ⟨b, hb, hst, hc, hs⟩ := ih (System.step env k expiration handler s (.expire key))
        a h
      refine ⟨b, hb, ?_, hc, hs⟩
      have hcount : (Event.expire key :: rest).count (.run j) = rest.count (.run j) := by
        simp [List.count_cons]
      rw [hcount]
      exact hst
    | run i =>
      by_cases hij : i = j
      · subst hij
        have hstep : System.step env k expiration handler s (.run i) =
            { world := (stepAttempt env k expiration handler a s.world).2,
              attempts := s.attempts.set i (stepAttempt env k expiration handler a s.world).1 } := by
          simp only [System.step, h]
        obtain ⟨hp, hc1, hs1⟩ := stepAttempt_progress env k expiration handler a s.world
        obtain ⟨b, hb, hst, hc, hs⟩ := ih (System.step env k expiration handler s (.run i))
          (stepAttempt env k expiration handler a s.world).1
          (by rw [hstep]; exact getElem?_set_at _ _ _ _ h)
        refine ⟨b, hb, ?_, hc.trans hc1, hs.trans hs1⟩
        have hcount : (Event.run i :: rest).count (.run i) = rest.count (.run i) + 1 := by
          simp [List.count_cons]
        rw [hcount]
        omega
      · have hsame : (System.step env k expiration handler s (.run i)).attempts[j]? =
            some a := by
          cases hget : s.attempts[i]? with
          | none =>
            simp only [System.step, hget]
            exact h
          | some ai =>
            simp only [System.step, hget]
            rw [List.getElem?_set_ne hij]
            exact h
        obtain ⟨b, hb, hst, hc, hs⟩ := ih _ a hsame
        refine ⟨b, hb, ?_, hc, hs⟩
        have hcount : (Event.run i :: rest).count (.run j) = rest.count (.run j) := by
          have : Event.run i ≠ Event.run j := fun e => hij (by injection e)
          simp [List.count_cons, this]
        rw [hcount]
        exact hst

theorem run_length {σ : Type} (env : Env) (k : StringKey) (expiration : Int)
    (handler : Handler σ) (evs : List Event) (s : System σ) :
    (System.run env k expiration handler s evs).attempts.length = s.attempts.length := by
  induction evs generalizing s with
  | nil => rfl
  | cons ev rest ih =>
    have hrun : System.run env k expiration handler s (ev :: rest) =
        System.run env k expiration handler (System.step env k expiration handler s ev) rest :=
      rfl
    rw [hrun, ih]
    cases ev with
    | expire key => rfl
    | run i =>
      cases hget : s.attempts[i]? with
      | none => simp only [System.step, hget]
      | some ai => simp only [System.step, hget, List.length_set]

theorem startAll_getElem? (params : List (Ctx × Sched)) (j : Nat) (a : Attempt)
    (h : (startAll params)[j]? = some a) :
    ∃ p, params[j]? = some p ∧ a = { ctx := p.1, sched := p.2, pc := .start } := by
  unfold startAll at h
  rw [List.getElem?_map] at h
  cases hp : params[j]? with
  | none => simp [hp] at h
  | some p =>
    refine ⟨p, rfl, ?_⟩
    simpa [hp] using h.symm

/-- The three atomic steps of an attempt, taken one after the other, are the
call of `GetLocker`. -/
theorem stepAttempt_thrice {σ : Type} (env : Env) (k : StringKey) (expiration : Int)
    (handler : Handler σ) (ctx : Ctx) (sched : Sched) (w : World σ) :
    let s1 := stepAttempt env k expiration handler ⟨ctx, sched, .start⟩ w
    let s2 := stepAttempt env k expiration handler s1.1 s1.2
    let s3 := stepAttempt env k expiration handler s2.1 s2.2
    s3 = (⟨ctx, sched, .finished (k.GetLocker env sched ctx expiration handler w).1⟩,
      (k.GetLocker env sched ctx expiration handler w).2) := by
  simp only [StringKey.GetLocker, StringKey.SetNX, stepAttempt]
  rcases MustGetRedis env w with ⟨r, w1⟩
  cases r with
  | ret client =>
    simp only
    rcases setNXOn env k "" expiration client w1 with ⟨r2, w2⟩
    cases r2 with
    | ret p =>
      rcases p with ⟨got, err⟩
      cases err with
      | some e => simp [afterSetNX]
      | none => cases got <;> simp [afterSetNX]
    | panicked v => simp [afterSetNX]
    | blocked => simp [afterSetNX]
  | panicked v => simp [afterSetNX]
  | blocked => simp [afterSetNX]


/-- C2, as amended: `n ≥ 1` goroutines call `GetLocker` on the same key with the
same expiry and the handler that adds one to a shared counter, the store answers
every conditional set atomically, the key is absent at the start and the store
does not expire it.  Then in every interleaving in which each attempt takes its
three steps, every attempt returns (nil, or what the select of the attempt that
ran the handler gave), the handler has been invoked exactly once and the counter
is exactly 1; and every attempt returns nil provided that, for each attempt, the
handler returns before the derived context of that attempt is done (its deadline
is later than the `d` nanoseconds the handler takes and its ambient context is
not done before). -/
theorem GetLocker_mutual_exclusion (env : Env) (k : StringKey) (expiration : Int) (d : Nat)
    (w0 : World Nat) (params : List (Ctx × Sched)) (evs : List Event)
    (hn : 1 ≤ params.length)
    (hping : ∀ n, env.ping n = none) (hfault : ∀ n, env.fault n = none)
    (hconn : connectable w0) (habsent : present w0.store k.key = false)
    (hzero : w0.user = 0)
    (hnoexp : ∀ ev ∈ evs, ev ≠ .expire k.key)
    (hfair : ∀ i < params.length, 3 ≤ evs.count (.run i)) :
    (System.run env k expiration (countingHandler d) ⟨w0, startAll params⟩ evs).attempts.length
      = params.length ∧
    (∀ a ∈ (System.run env k expiration (countingHandler d) ⟨w0, startAll params⟩
        evs).attempts,
      ∃ r, a.pc = .finished r ∧ (r = .ret none ∨ r = winnerResult expiration d a)) ∧
    (System.run env k expiration (countingHandler d) ⟨w0, startAll params⟩ evs).world.invoked
      = w0.invoked + 1 ∧
    (System.run env k expiration (countingHandler d) ⟨w0, startAll params⟩ evs).world.user
      = 1 ∧
    ((∀ p ∈ params, ∀ t e, (WithTimeout p.1 expiration p.2).done = some (t, e) → d < t) →
      ∀ a ∈ (System.run env k expiration (countingHandler d) ⟨w0, startAll params⟩
        evs).attempts, a.pc = .finished (.ret none)) := by
  have hlen0 : (startAll params).length = params.length := by simp [startAll]
  have hlen := run_length env k expiration (countingHandler d) evs ⟨w0, startAll params⟩
  have hinit : Invariant k expiration d w0.invoked ⟨w0, startAll params⟩ := by
    refine ⟨hconn, ?_, Or.inl ⟨habsent, rfl, hzero, ?_⟩⟩
    · intro j b hb
      obtain ⟨p, _, rfl⟩ := startAll_getElem? params j b hb
      trivial
    · intro j b hb
      obtain ⟨p, _, rfl⟩ := startAll_getElem? params j b hb
      exact Nat.zero_le _
  obtain ⟨_, hsound, hexcl⟩ :=
    Invariant_run env k expiration d w0.invoked evs _ hping hfault hnoexp hinit
  -- every attempt of the final state comes from a caller and has returned
  have hfin : ∀ (j : Nat) (b : Attempt),
      (System.run env k expiration (countingHandler d) ⟨w0, startAll params⟩
        evs).attempts[j]? = some b →
      b.pc.isFinished = true ∧ ∃ p ∈ params, b.ctx = p.1 ∧ b.sched = p.2 := by
    intro j b hb
    have hj : j < params.length := by
      obtain ⟨hlt, _⟩ := List.getElem?_eq_some.mp hb
      have : (System.run env k expiration (countingHandler d) ⟨w0, startAll params⟩
        evs).attempts.length = params.length := hlen.trans hlen0
      omega
    have hj0 : j < (startAll params).length := by omega
    have hget0 : (startAll params)[j]? = some ((startAll params)[j]) :=
      List.getElem?_eq_getElem hj0
    obtain ⟨p, hp, ha0⟩ := startAll_getElem? params j _ hget0
    obtain ⟨b2, hb2, hst, hc, hs⟩ := run_progress env k expiration (countingHandler d) evs
      ⟨w0, startAll params⟩ j _ hget0
    have hbb : b2 = b := Option.some.inj (hb2.symm.trans hb)
    subst hbb
    have h3 := hfair j hj
    rw [ha0] at hst hc hs
    refine ⟨finished_of_stage _ ?_, p, List.mem_iff_getElem?.mpr ⟨j, hp⟩, hc, hs⟩
    have h0 : (Pc.start).stage = 0 := rfl
    simp only [h0] at hst
    omega
  have hfirst : ∃ b, (System.run env k expiration (countingHandler d) ⟨w0, startAll params⟩
      evs).attempts[0]? = some b := by
    have hpos : 0 < (System.run env k expiration (countingHandler d) ⟨w0, startAll params⟩
      evs).attempts.length := by
      rw [hlen, hlen0]
      exact hn
    exact ⟨_, List.getElem?_eq_getElem hpos⟩
  have hcount : (System.run env k expiration (countingHandler d) ⟨w0, startAll params⟩
      evs).world.invoked = w0.invoked + 1 ∧
      (System.run env k expiration (countingHandler d) ⟨w0, startAll params⟩
        evs).world.user = 1 := by
    obtain ⟨b0, hb0⟩ := hfirst
    have hf0 := (hfin 0 b0 hb0).1
    rcases hexcl with ⟨_, _, _, hall⟩ | ⟨_, _, _, i, ⟨a, hai, hl⟩, _⟩ | ⟨_, pi, pu, _⟩
    · have h1 := hall 0 b0 hb0
      have h3 := stage_of_finished _ hf0
      omega
    · have hfa := (hfin i a hai).1
      have h3 := stage_of_finished _ hfa
      have h2 := stage_of_locked _ hl
      omega
    · exact ⟨pi, pu⟩
  refine ⟨hlen.trans hlen0, ?_, hcount.1, hcount.2, ?_⟩
  · intro a ha
    obtain ⟨j, hj⟩ := List.mem_iff_getElem?.mp ha
    have hf := (hfin j a hj).1
    have hsnd := hsound j a hj
    rcases a with ⟨ctx, sched, pc⟩
    cases pc with
    | finished r => exact ⟨r, rfl, hsnd⟩
    | start => cases hf
    | connected c => cases hf
    | locked => cases hf
  · intro htime a ha
    obtain ⟨j, hj⟩ := List.mem_iff_getElem?.mp ha
    obtain ⟨hf, p, hp, hc, hs⟩ := hfin j a hj
    have hsnd := hsound j a hj
    rcases a with ⟨ctx, sched, pc⟩
    cases pc with
    | finished r =>
      have hr : r = .ret none ∨ r = winnerResult expiration d ⟨ctx, sched, .finished r⟩ := hsnd
      rcases hr with h | h
      · rw [h]
      · have hw : winnerResult expiration d ⟨ctx, sched, .finished r⟩ = .ret none := by
          unfold winnerResult
          simp only at hc hs ⊢
          rw [hc, hs]
          apply selectDone_handler_first
          cases hdone : (WithTimeout p.1 expiration p.2).done with
          | none =>
            unfold WithTimeout at hdone
            cases hpd : p.1.done with
            | none => simp [hpd] at hdone
            | some ce =>
              simp only [hpd] at hdone
              split_ifs at hdone
          | some te => exact ⟨te.1, te.2, rfl, htime p hp te.1 te.2 hdone⟩
        rw [h, hw]
    | start => cases hf
    | connected c => cases hf
    | locked => cases hf


theorem GetLocker_mutual_exclusion_witness :
    (System.run calmEnv (NewStringKey "test5") 500000000 (countingHandler 0)
        ⟨freshWorld, startAll threeCallers⟩ sampleSchedule).attempts.length = 3 ∧
    (System.run calmEnv (NewStringKey "test5") 500000000 (countingHandler 0)
        ⟨freshWorld, startAll threeCallers⟩ sampleSchedule).world.invoked = 1 ∧
    (System.run calmEnv (NewStringKey "test5") 500000000 (countingHandler 0)
        ⟨freshWorld, startAll threeCallers⟩ sampleSchedule).world.user = 1 ∧
    (System.run calmEnv (NewStringKey "test5") 500000000 (countingHandler 0)
        ⟨freshWorld, startAll threeCallers⟩ sampleSchedule).attempts.map Attempt.pc =
      [.finished (.ret none), .finished (.ret none), .finished (.ret none)] :=
  have h := GetLocker_mutual_exclusion calmEnv (NewStringKey "test5") 500000000 0 freshWorld
    threeCallers sampleSchedule (by decide) (fun _ => rfl) (fun _ => rfl) (Or.inr rfl) rfl rfl
    (by decide) (by decide)
  ⟨h.1, h.2.2.1, h.2.2.2.1, rfl⟩

/-- C2 fails as stated in its last clause.  One goroutine, the key absent, the
store answering, the handler adding one to the counter in 5 ns: with the expiry
500 ms and an ambient context cancelled after 1 ns the attempt returns
`context.Canceled`; with the expiry 0 under `context.Background()` it returns
`context.DeadlineExceeded`.  In both runs the counter is 1. -/
theorem GetLocker_mutual_exclusion_counterexample :
    present freshWorld.store "test5" = false ∧
    (System.run calmEnv (NewStringKey "test5") 500000000 (countingHandler 5)
        ⟨freshWorld, startAll [(cancelledSoon, sampleSched)]⟩
        [.run 0, .run 0, .run 0]).attempts.map Attempt.pc =
      [.finished (.ret (some .canceled))] ∧
    (System.run calmEnv (NewStringKey "test5") 500000000 (countingHandler 5)
        ⟨freshWorld, startAll [(cancelledSoon, sampleSched)]⟩
        [.run 0, .run 0, .run 0]).world.user = 1 ∧
    ((NewStringKey "test5").GetLocker calmEnv sampleSched cancelledSoon 500000000
        (countingHandler 5) freshWorld).1 = .ret (some .canceled) ∧
    (System.run calmEnv (NewStringKey "test5") 0 (countingHandler 5)
        ⟨freshWorld, startAll [(Background, sampleSched)]⟩
        [.run 0, .run 0, .run 0]).attempts.map Attempt.pc =
      [.finished (.ret (some .deadlineExceeded))] ∧
    (System.run calmEnv (NewStringKey "test5") 0 (countingHandler 5)
        ⟨freshWorld, startAll [(Background, sampleSched)]⟩
        [.run 0, .run 0, .run 0]).world.user = 1 ∧
    ((NewStringKey "test5").GetLocker calmEnv sampleSched Background 0
        (countingHandler 5) freshWorld).1 = .ret (some .deadlineExceeded) :=
  ⟨rfl, rfl, rfl, rfl, rfl, rfl, rfl⟩


/-! ## C11, C12: connection acquisition fails -/

/-- C11: when the cache is empty and no configuration was supplied
(`globalOption` is nil), `GetRedis` returns `(nil, ErrConfigUndefined)`, leaves
the world as it is (no client constructed, no probe sent, the cache empty), and
`ErrConfigUndefined` differs from every error of the store client: the error
`GetRedis` returns when the probe of a configured client fails with such an
error is not `ErrConfigUndefined`. -/
theorem GetRedis_config_undefined {σ : Type} (env : Env) (w : World σ)
    (hc : w.globalRedisClient = none) (ho : w.globalOption = none) :
    GetRedis env w = ((none, some .ErrConfigUndefined), w) ∧
    (GetRedis env w).2.newClients = w.newClients ∧
    (GetRedis env w).2.pings = w.pings ∧
    (GetRedis env w).2.globalRedisClient = none ∧
    (∀ e : Error, e.fromClient = true → e ≠ .ErrConfigUndefined) ∧
    (∀ (w2 : World σ) (opt : Options) (e : Error), w2.globalRedisClient = none →
      w2.globalOption = some opt → env.ping w2.pings = some e → e.fromClient = true →
      (GetRedis env w2).1 = (none, some e) ∧ (GetRedis env w2).1.2 ≠ some .ErrConfigUndefined) := by
  have hg : GetRedis env w = ((none, some .ErrConfigUndefined), w) := by
    unfold GetRedis
    rw [hc, ho]
  have hne : ∀ e : Error, e.fromClient = true → e ≠ .ErrConfigUndefined := by
    intro e he h
    rw [h] at he
    cases he
  rw [hg]
  refine ⟨rfl, rfl, rfl, hc, hne, ?_⟩
  intro w2 opt e hc2 ho2 hp he
  rw [GetRedis_refused env w2 opt e hc2 ho2 hp]
  exact ⟨rfl, fun h => hne e he (Option.some.inj h)⟩

theorem GetRedis_config_undefined_witness :
    GetRedis calmEnv bareWorld = ((none, some .ErrConfigUndefined), bareWorld) ∧
    (GetRedis calmEnv bareWorld).2.newClients = 0 ∧
    (GetRedis calmEnv bareWorld).2.pings = 0 ∧
    (GetRedis calmEnv bareWorld).2.globalRedisClient = none :=
  have h := GetRedis_config_undefined calmEnv bareWorld rfl rfl
  ⟨h.1, h.2.1, h.2.2.1, h.2.2.2.1⟩

theorem MustGetRedis_failure {σ : Type} (env : Env) (w w1 : World σ) (c : Option Client)
    (e : Error) (hget : GetRedis env w = ((c, some e), w1)) :
    MustGetRedis env w = (.panicked (.logged "Get redis failed" e), w1) := by
  unfold MustGetRedis
  rw [hget]

theorem send_failure {σ : Type} (env : Env) (w w1 : World σ) (c : Option Client)
    (e : Error) (hget : GetRedis env w = ((c, some e), w1)) (cmd : Command)
    (effect : List (String × String) → List (String × String)) :
    send env cmd effect w = (.panicked (.logged "Get redis failed" e), w1) := by
  unfold send
  rw [MustGetRedis_failure env w w1 c e hget]


/-- C12, as amended: every key operation acquires the connection with
`MustGetRedis`.  When connection acquisition fails with the error `e` (no
configuration supplied, or the liveness probe fails), `GetRedis` returns `e`,
`MustGetRedis` aborts with the panic of `log.Panic`, and every operation that
goes to the store aborts with that panic instead of returning `e`; no command is
sent. -/
theorem operation_aborts_without_connection {σ : Type} (env : Env) (op : Operation σ)
    (w w1 : World σ) (c : Option Client) (e : Error) (cmd : Command)
    (hcmd : op.command = some cmd)
    (hget : GetRedis env w = ((c, some e), w1)) :
    MustGetRedis env w = (.panicked (.logged "Get redis failed" e), w1) ∧
    op.error env w = (.panicked (.logged "Get redis failed" e), w1) ∧
    w1.commands = w.commands := by
  have hm := MustGetRedis_failure env w w1 c e hget
  have hs := send_failure env w w1 c e hget
  have hframe := (GetRedis_frame env w).2.2.2
  rw [hget] at hframe
  refine ⟨hm, ?_, hframe⟩
  cases op <;>
    simp only [Operation.command, Operation.error, errorOnly, andThen, hs, hm,
      Key.Del, Key.Expire, Key.ExpireAt, Key.TTL, Key.Exists, StringKey.Get,
      StringKey.GetDefault, StringKey.GetInt, StringKey.GetInt64, StringKey.GetObject,
      StringKey.Set, StringKey.SetInt, StringKey.SetInt64, StringKey.SetNX,
      StringKey.GetLocker, afterSetNX, StringKey.Increase, StringKey.IncreaseBy,
      HashSetKey.HGet, HashSetKey.HGetObject, HashSetKey.HMGet, HashSetKey.HGetAll,
      HashSetKey.HSet, HashSetKey.HLen, SetKey.SIsMember, SetKey.SMembers,
      SetKey.SMembersMap, SetKey.SCard, StreamKey.XAdd, StreamKey.XAck,
      StreamKey.XGroupCreate, StreamKey.XGroupCreateFromBegining,
      StreamKey.XGroupCreateFromEnd, StreamKey.XGroupRead] at hcmd ⊢
  case SetObject k obj expiration =>
    rcases hmar : obj.marshal with ⟨buffer, err⟩
    cases err with
    | some e1 => simp [hmar] at hcmd
    | none => simp only [StringKey.SetObject, hmar, StringKey.Set, andThen, hs]
  case HSetObject k field value =>
    rcases hmar : value.marshal with ⟨buffer, err⟩
    cases err with
    | some e1 => simp [hmar] at hcmd
    | none => simp only [HashSetKey.HSetObject, hmar, HashSetKey.HSet, andThen, hs]
  case HDel k field =>
    by_cases h0 : field.length = 0
    · simp [h0] at hcmd
    · simp only [HashSetKey.HDel, h0, if_false, andThen, hs]
  case SAdd k members =>
    by_cases h0 : members.length = 0
    · simp [h0] at hcmd
    · simp only [SetKey.SAdd, h0, if_false, andThen, hs]
  case SRem k members =>
    by_cases h0 : members.length = 0
    · simp [h0] at hcmd
    · simp only [SetKey.SRem, h0, if_false, andThen, hs]
  case XAddToEnd s values =>
    by_cases h0 : values.length < 2 ∨ values.length % 2 ≠ 0
    · rw [if_pos h0] at hcmd
      cases hcmd
    · simp only [StreamKey.XAddToEnd, h0, if_false, StreamKey.XAdd, andThen, hs]

theorem operation_aborts_without_connection_witness :
    (Operation.GetLocker sampleSched (NewStringKey "test5") Background 500000000
        (countingHandler 0)).error calmEnv bareWorld =
      (.panicked (.logged "Get redis failed" .ErrConfigUndefined), bareWorld) :=
  (operation_aborts_without_connection calmEnv
    (Operation.GetLocker sampleSched (NewStringKey "test5") Background 500000000
      (countingHandler 0))
    bareWorld bareWorld none .ErrConfigUndefined (.setnx "test5" "" 500000000) rfl rfl).2.1

/-- C12 fails as stated.  With no configuration supplied `GetRedis` returns
`ErrConfigUndefined`, but `SetNX` and `GetLocker` do not return it: they panic.
The same holds when the liveness probe is refused. -/
theorem operation_aborts_without_connection_counterexample :
    (GetRedis calmEnv bareWorld).1 = (none, some .ErrConfigUndefined) ∧
    ((NewStringKey "test5").SetNX calmEnv "" 500000000 bareWorld).1 =
      .panicked (.logged "Get redis failed" .ErrConfigUndefined) ∧
    ((NewStringKey "test5").GetLocker calmEnv sampleSched Background 500000000
        (countingHandler 0) bareWorld).1 =
      .panicked (.logged "Get redis failed" .ErrConfigUndefined) ∧
    (GetRedis lateServer freshWorld).1 =
      (none, some (.transport "dial tcp: connection refused")) ∧
    ((NewStringKey "test5").SetNX lateServer "" 500000000 freshWorld).1 =
      .panicked (.logged "Get redis failed" (.transport "dial tcp: connection refused")) ∧
    ((NewStringKey "test5").GetLocker lateServer sampleSched Background 500000000
        (countingHandler 0) freshWorld).1 =
      .panicked (.logged "Get redis failed" (.transport "dial tcp: connection refused")) :=
  ⟨rfl, rfl, rfl, rfl, rfl, rfl⟩


/-! ## C13: HMGet -/

theorem lookup_cons_eq (m : List (String × String)) (k v k1 : String) :
    ((k, v) :: m).lookup k1 = if k1 = k then some v else m.lookup k1 := by
  by_cases h : k1 = k
  · subst h
    simp [List.lookup]
  · have hb : (k1 == k) = false := by simpa using h
    simp [List.lookup, hb, h]

theorem lookup_mapSet (m : List (String × String)) (k v k1 : String) :
    (mapSet m k v).lookup k1 = if k1 = k then some v else m.lookup k1 := by
  induction m with
  | nil =>
    simp only [mapSet, lookup_cons_eq]
  | cons kv rest ih =>
    rcases kv with ⟨k2, v2⟩
    by_cases h2 : k2 = k
    · subst h2
      simp only [mapSet, if_true, lookup_cons_eq]
      by_cases h1 : k1 = k2 <;> simp [h1]
    · simp only [mapSet, h2, if_false, lookup_cons_eq, ih]
      by_cases h1 : k1 = k
      · subst h1
        have : ¬ k1 = k2 := fun e => h2 e.symm
        simp [this]
      · simp [h1]

theorem keys_mapSet (m : List (String × String)) (k v : String) (k1 : String) :
    k1 ∈ (mapSet m k v).map Prod.fst ↔ k1 = k ∨ k1 ∈ m.map Prod.fst := by
  induction m with
  | nil => simp [mapSet]
  | cons kv rest ih =>
    rcases kv with ⟨k2, v2⟩
    by_cases h2 : k2 = k
    · subst h2
      simp [mapSet]
    · simp only [mapSet, h2, if_false, List.map_cons, List.mem_cons, ih]
      tauto

theorem nodup_mapSet (m : List (String × String)) (k v : String)
    (h : (m.map Prod.fst).Nodup) : ((mapSet m k v).map Prod.fst).Nodup := by
  induction m with
  | nil => simp [mapSet]
  | cons kv rest ih =>
    rcases kv with ⟨k2, v2⟩
    have hh := List.nodup_cons.mp h
    by_cases h2 : k2 = k
    · subst h2
      simpa [mapSet] using h
    · simp only [mapSet, h2, if_false, List.map_cons]
      refine List.nodup_cons.mpr ⟨?_, ih hh.2⟩
      intro hmem
      rcases (keys_mapSet rest k v k2).mp hmem with e | e
      · exact h2 e
      · exact hh.1 e

theorem hmgetLoop_nodup (fields : List String) (values : List Value) (index : Nat)
    (result : List (String × String)) (h : (result.map Prod.fst).Nodup) :
    ((hmgetLoop fields index values result).map Prod.fst).Nodup := by
  induction values generalizing index result with
  | nil => exact h
  | cons value rest ih =>
    cases value with
    | str s => exact ih _ _ (nodup_mapSet _ _ _ h)
    | null => exact ih _ _ h
    | other n => exact ih _ _ h

theorem hmgetLoop_sound (fields : List String) (values : List Value) (index : Nat)
    (result : List (String × String)) (f v : String)
    (h : (hmgetLoop fields index values result).lookup f = some v) :
    result.lookup f = some v ∨
      ∃ i, fields.getD (index + i) "" = f ∧ values[i]? = some (.str v) := by
  induction values generalizing index result with
  | nil => exact Or.inl h
  | cons value rest ih =>
    have shift : ∀ res : List (String × String),
        (hmgetLoop fields (index + 1) rest res).lookup f = some v →
        res.lookup f = some v ∨
          ∃ i, fields.getD (index + i) "" = f ∧ (value :: rest)[i]? = some (.str v) := by
      intro res hres
      rcases ih (index + 1) res hres with h1 | ⟨i, hf, hv⟩
      · exact Or.inl h1
      · refine Or.inr ⟨i + 1, ?_, ?_⟩
        · rw [← hf]
          congr 1
          omega
        · simpa using hv
    cases value with
    | str s =>
      rcases shift _ h with h1 | h1
      · rw [lookup_mapSet] at h1
        by_cases hf : f = fields.getD index ""
        · rw [if_pos hf] at h1
          have hsv : s = v := Option.some.inj h1
          refine Or.inr ⟨0, ?_, ?_⟩
          · simpa using hf.symm
          · simp [hsv]
        · rw [if_neg hf] at h1
          exact Or.inl h1
      · exact Or.inr h1
    | null => exact shift _ h
    | other n => exact shift _ h

theorem hmgetLoop_complete (fields : List String) (values : List Value) (index : Nat)
    (result : List (String × String)) (f : String)
    (h : (∃ v, result.lookup f = some v) ∨
      ∃ i s, fields.getD (index + i) "" = f ∧ values[i]? = some (.str s)) :
    ∃ v, (hmgetLoop fields index values result).lookup f = some v := by
  induction values generalizing index result with
  | nil =>
    rcases h with h | ⟨i, s, _, hv⟩
    · exact h
    · simp at hv
  | cons value rest ih =>
    have later : ∀ res : List (String × String),
        ((∃ v, res.lookup f = some v) ∨
          ∃ i s, fields.getD (index + (i + 1)) "" = f ∧ rest[i]? = some (.str s)) →
        ∃ v, (hmgetLoop fields (index + 1) rest res).lookup f = some v := by
      intro res hres
      apply ih
      rcases hres with h1 | ⟨i, s, hf, hv⟩
      · exact Or.inl h1
      · refine Or.inr ⟨i, s, ?_, hv⟩
        rw [← hf]
        congr 1
        omega
    rcases h with ⟨v, hv⟩ | ⟨i, s, hf, hv⟩
    · cases value with
      | str s =>
        apply later
        left
        rw [lookup_mapSet]
        by_cases hf : f = fields.getD index ""
        · exact ⟨s, by rw [if_pos hf]⟩
        · exact ⟨v, by rw [if_neg hf]; exact hv⟩
      | null => exact later _ (Or.inl ⟨v, hv⟩)
      | other n => exact later _ (Or.inl ⟨v, hv⟩)
    · cases i with
      | zero =>
        have hval : value = .str s := by simpa using hv
        subst hval
        apply later
        left
        rw [lookup_mapSet]
        have hf0 : f = fields.getD index "" := by simpa using hf.symm
        exact ⟨s, by rw [if_pos hf0]⟩
      | succ j =>
        have hv2 : rest[j]? = some (.str s) := by simpa using hv
        cases value with
        | str s2 => exact later _ (Or.inr ⟨j, s, hf, hv2⟩)
        | null => exact later _ (Or.inr ⟨j, s, hf, hv2⟩)
        | other n => exact later _ (Or.inr ⟨j, s, hf, hv2⟩)


theorem getD_of_getElem? (fields : List String) (i : Nat) (f : String)
    (h : fields[i]? = some f) : fields.getD i "" = f := by
  rw [List.getD_eq_getElem?_getD, h]
  rfl

theorem getElem?_of_getD (fields : List String) (i : Nat) (f : String)
    (hi : i < fields.length) (h : fields.getD i "" = f) : fields[i]? = some f := by
  rw [List.getD_eq_getElem?_getD, List.getElem?_eq_getElem hi] at h
  rw [List.getElem?_eq_getElem hi]
  exact congrArg some h

/-- C13: when the store answers `HMGET` without error and with exactly one value
per requested field, `HMGet` returns, with a nil error, a map (its keys are
distinct) such that: every entry `f ↦ v` comes from a position where `f` was
requested and the store returned the string `v` (no entry is invented); `f` is a
key exactly when `f` was requested at a position where the store returned a
string (nil and other values are left out); and a requested field with a string
value `s` is mapped to `s`, the answer giving that field no other string. -/
theorem HMGet_answered {σ : Type} (env : Env) (k : HashSetKey) (fields : List String)
    (w w1 : World σ) (n : Nat)
    (hsend : send env (.hmget k.key fields) id w = (.ret (n, none), w1))
    (hlen : (env.values n).length = fields.length) :
    ∃ result : List (String × String),
      k.HMGet env fields w = (.ret (some result, none), w1) ∧
      (result.map Prod.fst).Nodup ∧
      (∀ f v, result.lookup f = some v →
        ∃ i : Nat, fields[i]? = some f ∧ (env.values n)[i]? = some (Value.str v)) ∧
      (∀ f, (∃ v, result.lookup f = some v) ↔
        ∃ (i : Nat) (s : String), fields[i]? = some f ∧ (env.values n)[i]? = some (Value.str s)) ∧
      (∀ (i : Nat) (f s : String), fields[i]? = some f → (env.values n)[i]? = some (Value.str s) →
        (∀ (j : Nat) (t : String), fields[j]? = some f → (env.values n)[j]? = some (Value.str t) → t = s) →
        result.lookup f = some s) := by
  have hsound : ∀ f v, (hmgetLoop fields 0 (env.values n) []).lookup f = some v →
      ∃ i : Nat, fields[i]? = some f ∧ (env.values n)[i]? = some (Value.str v) := by
    intro f v h
    rcases hmgetLoop_sound fields (env.values n) 0 [] f v h with h1 | ⟨i, hf, hv⟩
    · simp at h1
    · have hi : i < fields.length := by
        obtain ⟨hlt, _⟩ := List.getElem?_eq_some.mp hv
        omega
      rw [Nat.zero_add] at hf
      exact ⟨i, getElem?_of_getD fields i f hi hf, hv⟩
  have hcomplete : ∀ f, (∃ (i : Nat) (s : String), fields[i]? = some f ∧ (env.values n)[i]? = some (Value.str s)) →
      ∃ v, (hmgetLoop fields 0 (env.values n) []).lookup f = some v := by
    intro f ⟨i, s, hf, hv⟩
    apply hmgetLoop_complete
    right
    refine ⟨i, s, ?_, hv⟩
    rw [Nat.zero_add]
    exact getD_of_getElem? fields i f hf
  refine ⟨hmgetLoop fields 0 (env.values n) [], ?_, ?_, hsound, ?_, ?_⟩
  · simp only [HashSetKey.HMGet, hsend, andThen, hlen, ne_eq, not_true_eq_false, if_false]
  · exact hmgetLoop_nodup fields _ 0 [] (by simp)
  · intro f
    constructor
    · intro ⟨v, hv⟩
      obtain ⟨i, hf, hval⟩ := hsound f v hv
      exact ⟨i, v, hf, hval⟩
    · exact hcomplete f
  · intro i f s hf hv huniq
    obtain ⟨v, hv2⟩ := hcomplete f ⟨i, s, hf, hv⟩
    obtain ⟨j, hfj, hvj⟩ := hsound f v hv2
    rw [hv2, huniq j v hfj hvj]

theorem HMGet_answered_witness :
    (∃ result : List (String × String),
      (NewHashSetKey "hs111").HMGet hashServer ["1", "2", "not exists"] freshWorld =
        (.ret (some result, none),
          (send hashServer (.hmget "hs111" ["1", "2", "not exists"]) id freshWorld).2) ∧
      (result.map Prod.fst).Nodup ∧
      (∀ f v, result.lookup f = some v →
        ∃ i : Nat, ["1", "2", "not exists"][i]? = some f ∧
          (hashServer.values 0)[i]? = some (Value.str v)) ∧
      (∀ f, (∃ v, result.lookup f = some v) ↔
        ∃ (i : Nat) (s : String), ["1", "2", "not exists"][i]? = some f ∧
          (hashServer.values 0)[i]? = some (Value.str s)) ∧
      (∀ (i : Nat) (f s : String), ["1", "2", "not exists"][i]? = some f →
        (hashServer.values 0)[i]? = some (Value.str s) →
        (∀ (j : Nat) (t : String), ["1", "2", "not exists"][j]? = some f →
          (hashServer.values 0)[j]? = some (Value.str t) → t = s) →
        result.lookup f = some s)) ∧
    ((NewHashSetKey "hs111").HMGet hashServer ["1", "2", "not exists"] freshWorld).1 =
      .ret (some [("1", "1"), ("2", "2")], none) :=
  ⟨HMGet_answered hashServer (NewHashSetKey "hs111") ["1", "2", "not exists"] freshWorld _ 0
    rfl rfl, rfl⟩


/-! ## C14, C18: XAddToEnd -/

theorem send_error_fromClient {σ : Type} (env : Env) (cmd : Command)
    (effect : List (String × String) → List (String × String)) (w w1 : World σ) (n : Nat)
    (e : Error) (hclient : ∀ m e1, env.fault m = some e1 → e1.fromClient = true)
    (h : send env cmd effect w = (.ret (n, some e), w1)) : e.fromClient = true := by
  unfold send at h
  rcases hm : MustGetRedis env w with ⟨r, w0⟩
  rw [hm] at h
  cases r with
  | ret client =>
    cases client with
    | none => simp at h
    | some c =>
      simp only at h
      cases hf : env.fault w0.commands.length with
      | none => simp [hf] at h
      | some e1 =>
        simp only [hf, Prod.mk.injEq, Outcome.ret.injEq, Option.some.injEq] at h
        rw [← h.1.2]
        exact hclient _ _ hf
  | panicked v => simp at h
  | blocked => simp at h

theorem XAdd_error_fromClient {σ : Type} (env : Env) (s : StreamKey) (id : String)
    (maxLen limit : Int) (values : List (String × String)) (w w1 : World σ)
    (messageID : String) (e : Error)
    (hclient : ∀ m e1, env.fault m = some e1 → e1.fromClient = true)
    (h : s.XAdd env id maxLen limit values w = (.ret (messageID, some e), w1)) :
    e.fromClient = true := by
  unfold StreamKey.XAdd at h
  rcases hs : send env (.xadd s.key maxLen limit id values) (fun st => st) w with ⟨r, w0⟩
  rw [hs] at h
  cases r with
  | ret p =>
    rcases p with ⟨n, err⟩
    cases err with
    | none => simp [andThen, passThrough] at h
    | some e1 =>
      simp only [andThen, passThrough, Prod.mk.injEq, Outcome.ret.injEq,
        Option.some.injEq] at h
      rw [← h.1.2]
      exact send_error_fromClient env _ _ w w0 n e1 hclient hs
  | panicked v => simp [andThen] at h
  | blocked => simp [andThen] at h

/-- C14: for every argument list of odd length `XAddToEnd` returns
`("", ErrBadRequest)` and leaves the world as it is (no connection is acquired,
no command is sent).  A list of even length with at least one pair passes the
check: the call is the call of `XAdd` with the id `*`, and as the store client
never produces `ErrBadRequest`, the call does not return it. -/
theorem XAddToEnd_odd {σ : Type} (env : Env) (s : StreamKey) (values : List String)
    (w : World σ) :
    (values.length % 2 = 1 →
      s.XAddToEnd env values w = (.ret ("", some .ErrBadRequest), w)) ∧
    (values.length % 2 = 0 → 2 ≤ values.length →
      s.XAddToEnd env values w = s.XAdd env "*" 0 0 (pairUp values []) w ∧
      ((∀ m e1, env.fault m = some e1 → e1.fromClient = true) →
        ∀ (messageID : String) (w1 : World σ),
          s.XAddToEnd env values w ≠ (.ret (messageID, some .ErrBadRequest), w1))) := by
  constructor
  · intro hodd
    have hbad : values.length < 2 ∨ values.length % 2 ≠ 0 := Or.inr (by omega)
    simp only [StreamKey.XAddToEnd, hbad, if_true]
  · intro heven h2
    have hok : ¬ (values.length < 2 ∨ values.length % 2 ≠ 0) := by omega
    have hcall : s.XAddToEnd env values w = s.XAdd env "*" 0 0 (pairUp values []) w := by
      simp only [StreamKey.XAddToEnd, hok, if_false]
    refine ⟨hcall, ?_⟩
    intro hclient messageID w1 h
    rw [hcall] at h
    have := XAdd_error_fromClient env s "*" 0 0 _ w w1 messageID .ErrBadRequest hclient h
    cases this

theorem XAddToEnd_odd_witness :
    (NewStreamKey "stream1").XAddToEnd calmEnv ["f1", "1", "f2"] freshWorld =
      (.ret ("", some .ErrBadRequest), freshWorld) ∧
    ((NewStreamKey "stream1").XAddToEnd calmEnv ["f1", "1", "f2", "2"] freshWorld =
        (NewStreamKey "stream1").XAdd calmEnv "*" 0 0 (pairUp ["f1", "1", "f2", "2"] [])
          freshWorld ∧
      (NewStreamKey "stream1").XAddToEnd calmEnv ["f1", "1", "f2", "2"] freshWorld ≠
        (.ret ("", some .ErrBadRequest), freshWorld)) ∧
    ((NewStreamKey "stream1").XAddToEnd calmEnv ["f1", "1", "f2", "2"] freshWorld).1 =
      .ret ("", none) ∧
    ((NewStreamKey "stream1").XAddToEnd calmEnv ["f1", "1", "f2", "2"] freshWorld).2.commands =
      [Command.xadd "stream1" 0 0 "*" [("f1", "1"), ("f2", "2")]] :=
  have h1 := (XAddToEnd_odd calmEnv (NewStreamKey "stream1") ["f1", "1", "f2"] freshWorld).1
    (by decide)
  have h2 := (XAddToEnd_odd calmEnv (NewStreamKey "stream1") ["f1", "1", "f2", "2"]
    freshWorld).2 (by decide) (by decide)
  ⟨h1, ⟨h2.1, h2.2 (fun _ _ h => nomatch h) "" freshWorld⟩, rfl, rfl⟩


theorem pairUp_lookup (values : List String) (acc : List (String × String))
    (heven : values.length % 2 = 0) (f v : String) :
    (pairUp values acc).lookup f = some v ↔
      (∃ i : Nat, values[2 * i]? = some f ∧ values[2 * i + 1]? = some v ∧
        ∀ j : Nat, i < j → values[2 * j]? ≠ some f) ∨
      ((∀ j : Nat, values[2 * j]? ≠ some f) ∧ acc.lookup f = some v) := by
  induction values, acc using pairUp.induct with
  | case1 field value rest acc ih =>
    have hev : rest.length % 2 = 0 := by
      simp only [List.length_cons] at heven
      omega
    have h0 : (field :: value :: rest)[2 * 0]? = some field := by simp
    have h1 : (field :: value :: rest)[2 * 0 + 1]? = some value := by simp
    have hs0 : ∀ i : Nat, (field :: value :: rest)[2 * (i + 1)]? = rest[2 * i]? := by
      intro i
      have : 2 * (i + 1) = 2 * i + 1 + 1 := by omega
      rw [this]
      simp
    have hs1 : ∀ i : Nat, (field :: value :: rest)[2 * (i + 1) + 1]? = rest[2 * i + 1]? := by
      intro i
      have : 2 * (i + 1) + 1 = 2 * i + 1 + 1 + 1 := by omega
      rw [this]
      simp
    rw [pairUp, ih hev, lookup_mapSet]
    constructor
    · rintro (⟨i, hf, hv, hlast⟩ | ⟨hnone, hacc⟩)
      · left
        refine ⟨i + 1, by rw [hs0]; exact hf, by rw [hs1]; exact hv, ?_⟩
        intro j hj
        obtain ⟨j0, rfl⟩ : ∃ j0, j = j0 + 1 := ⟨j - 1, by omega⟩
        rw [hs0]
        exact hlast j0 (by omega)
      · by_cases hff : f = field
        · rw [if_pos hff] at hacc
          left
          refine ⟨0, by rw [h0, hff], by rw [h1]; exact hacc, ?_⟩
          intro j hj
          obtain ⟨j0, rfl⟩ : ∃ j0, j = j0 + 1 := ⟨j - 1, by omega⟩
          rw [hs0]
          exact hnone j0
        · rw [if_neg hff] at hacc
          right
          refine ⟨?_, hacc⟩
          intro j
          cases j with
          | zero =>
            rw [h0]
            exact fun e => hff (Option.some.inj e).symm
          | succ j0 =>
            rw [hs0]
            exact hnone j0
    · rintro (⟨i, hf, hv, hlast⟩ | ⟨hnone, hacc⟩)
      · cases i with
        | zero =>
          rw [h0] at hf
          rw [h1] at hv
          right
          have hff : f = field := (Option.some.inj hf).symm
          refine ⟨?_, by rw [if_pos hff]; exact hv⟩
          intro j
          have := hlast (j + 1) (by omega)
          rw [hs0] at this
          exact this
        | succ i0 =>
          rw [hs0] at hf
          rw [hs1] at hv
          left
          refine ⟨i0, hf, hv, ?_⟩
          intro j hj
          have := hlast (j + 1) (by omega)
          rw [hs0] at this
          exact this
      · right
        have hff : ¬ f = field := by
          intro e
          have := hnone 0
          rw [h0, e] at this
          exact this rfl
        refine ⟨?_, by rw [if_neg hff]; exact hacc⟩
        intro j
        have := hnone (j + 1)
        rw [hs0] at this
        exact this
  | case2 values acc hno =>
    have hnil : values = [] := by
      cases values with
      | nil => rfl
      | cons a rest =>
        cases rest with
        | nil => simp at heven
        | cons b rest2 => exact absurd rfl (hno a b rest2)
    subst hnil
    simp [pairUp]


theorem pairUp_keys (values : List String) (acc : List (String × String))
    (heven : values.length % 2 = 0) (f : String) :
    (∃ v, (pairUp values acc).lookup f = some v) ↔
      (∃ i : Nat, values[2 * i]? = some f) ∨ ∃ v, acc.lookup f = some v := by
  induction values, acc using pairUp.induct with
  | case1 field value rest acc ih =>
    have hev : rest.length % 2 = 0 := by
      simp only [List.length_cons] at heven
      omega
    have h0 : (field :: value :: rest)[2 * 0]? = some field := by simp
    have hs0 : ∀ i : Nat, (field :: value :: rest)[2 * (i + 1)]? = rest[2 * i]? := by
      intro i
      have : 2 * (i + 1) = 2 * i + 1 + 1 := by omega
      rw [this]
      simp
    rw [pairUp, ih hev]
    constructor
    · rintro (⟨i, hf⟩ | ⟨v, hv⟩)
      · exact Or.inl ⟨i + 1, by rw [hs0]; exact hf⟩
      · rw [lookup_mapSet] at hv
        by_cases hff : f = field
        · exact Or.inl ⟨0, by rw [h0, hff]⟩
        · rw [if_neg hff] at hv
          exact Or.inr ⟨v, hv⟩
    · rintro (⟨i, hf⟩ | ⟨v, hv⟩)
      · cases i with
        | zero =>
          rw [h0] at hf
          have hff : f = field := (Option.some.inj hf).symm
          exact Or.inr ⟨value, by rw [lookup_mapSet, if_pos hff]⟩
        | succ i0 =>
          rw [hs0] at hf
          exact Or.inl ⟨i0, hf⟩
      · right
        rw [lookup_mapSet]
        by_cases hff : f = field
        · exact ⟨value, by rw [if_pos hff]⟩
        · exact ⟨v, by rw [if_neg hff]; exact hv⟩
  | case2 values acc hno =>
    have hnil : values = [] := by
      cases values with
      | nil => rfl
      | cons a rest =>
        cases rest with
        | nil => simp at heven
        | cons b rest2 => exact absurd rfl (hno a b rest2)
    subst hnil
    simp [pairUp]

theorem pairUp_nodup (values : List String) (acc : List (String × String))
    (h : (acc.map Prod.fst).Nodup) : ((pairUp values acc).map Prod.fst).Nodup := by
  induction values, acc using pairUp.induct with
  | case1 field value rest acc ih =>
    rw [pairUp]
    exact ih (nodup_mapSet _ _ _ h)
  | case2 values acc hno =>
    rw [pairUp]
    · exact h
    · exact hno

theorem send_commands {σ : Type} (env : Env) (cmd : Command)
    (effect : List (String × String) → List (String × String)) (w w1 : World σ)
    (c : Client) (h : MustGetRedis env w = (.ret (some c), w1)) :
    (send env cmd effect w).2.commands = w.commands ++ [cmd] := by
  have hf := (MustGetRedis_frame env w).2.2.2
  rw [h] at hf
  simp only at hf
  unfold send
  rw [h]
  simp only
  cases env.fault w1.commands.length <;> simp [hf]

theorem XAdd_world {σ : Type} (env : Env) (s : StreamKey) (id : String)
    (maxLen limit : Int) (values : List (String × String)) (w : World σ) :
    (s.XAdd env id maxLen limit values w).2 =
      (send env (.xadd s.key maxLen limit id values) (fun st => st) w).2 := by
  unfold StreamKey.XAdd andThen
  rcases send env (.xadd s.key maxLen limit id values) (fun st => st) w with ⟨r, w2⟩
  cases r <;> rfl

/-- C18: for every argument list of even length at least 2, `XAddToEnd` is one
call of `XAdd` with the id `*`, `maxLen` 0, `limit` 0 and a map `m` (once the
connection is acquired, the store receives exactly that one command); the keys
of `m` are distinct and are exactly the elements at the even positions of the
list; and `m[f] = v` exactly when `v` follows the last even position that holds
`f`.  The empty list is rejected with `ErrBadRequest`. -/
theorem XAddToEnd_map {σ : Type} (env : Env) (s : StreamKey) (values : List String)
    (w : World σ) :
    (values.length % 2 = 0 → 2 ≤ values.length →
      s.XAddToEnd env values w = s.XAdd env "*" 0 0 (pairUp values []) w ∧
      (∀ (c : Client) (w1 : World σ), MustGetRedis env w = (.ret (some c), w1) →
        (s.XAddToEnd env values w).2.commands =
          w.commands ++ [Command.xadd s.key 0 0 "*" (pairUp values [])]) ∧
      ((pairUp values []).map Prod.fst).Nodup ∧
      (∀ f : String, (∃ v, (pairUp values []).lookup f = some v) ↔
        ∃ i : Nat, values[2 * i]? = some f) ∧
      (∀ f v : String, (pairUp values []).lookup f = some v ↔
        ∃ i : Nat, values[2 * i]? = some f ∧ values[2 * i + 1]? = some v ∧
          ∀ j : Nat, i < j → values[2 * j]? ≠ some f)) ∧
    (values = [] → s.XAddToEnd env values w = (.ret ("", some .ErrBadRequest), w)) := by
  constructor
  · intro heven h2
    have hok : ¬ (values.length < 2 ∨ values.length % 2 ≠ 0) := by omega
    have hcall : s.XAddToEnd env values w = s.XAdd env "*" 0 0 (pairUp values []) w := by
      simp only [StreamKey.XAddToEnd, hok, if_false]
    refine ⟨hcall, ?_, pairUp_nodup values [] (by simp), ?_, ?_⟩
    · intro c w1 hm
      rw [hcall, XAdd_world]
      exact send_commands env _ _ w w1 c hm
    · intro f
      rw [pairUp_keys values [] heven f]
      simp
    · intro f v
      rw [pairUp_lookup values [] heven f v]
      simp
  · intro hnil
    subst hnil
    simp [StreamKey.XAddToEnd]

theorem XAddToEnd_map_witness :
    ((NewStreamKey "stream1").XAddToEnd calmEnv ["f1", "1", "f2", "2", "f1", "3"] freshWorld =
        (NewStreamKey "stream1").XAdd calmEnv "*" 0 0
          (pairUp ["f1", "1", "f2", "2", "f1", "3"] []) freshWorld ∧
      pairUp ["f1", "1", "f2", "2", "f1", "3"] [] = [("f1", "3"), ("f2", "2")]) ∧
    ((NewStreamKey "stream1").XAddToEnd calmEnv ["f1", "1", "f2", "2", "f1", "3"]
        freshWorld).2.commands =
      [Command.xadd "stream1" 0 0 "*" [("f1", "3"), ("f2", "2")]] ∧
    (NewStreamKey "stream1").XAddToEnd calmEnv [] freshWorld =
      (.ret ("", some .ErrBadRequest), freshWorld) :=
  have h := XAddToEnd_map calmEnv (NewStreamKey "stream1") ["f1", "1", "f2", "2", "f1", "3"]
    freshWorld
  ⟨⟨(h.1 (by decide) (by decide)).1, rfl⟩, rfl,
    (XAddToEnd_map calmEnv (NewStreamKey "stream1") [] freshWorld).2 rfl⟩


/-! ## C17: the integer round trip -/

theorem digitValue_digitChar (d : Nat) (hd : d < 10) : digitValue (digitChar d) = some d := by
  interval_cases d <;> decide

theorem digitChar_not_sign (d : Nat) (hd : d < 10) :
    digitChar d ≠ '-' ∧ digitChar d ≠ '+' := by
  interval_cases d <;> decide

theorem parseDigitsFrom_formatBits (fuel n : Nat) (acc : List Char) (hn : n < fuel) :
    ∃ m : Nat, ∀ a : Nat,
      parseDigitsFrom a (formatBits fuel n acc) = parseDigitsFrom (a * m + n) acc := by
  induction fuel generalizing n acc with
  | zero => omega
  | succ fuel ih =>
    by_cases h10 : n < 10
    · refine ⟨10, fun a => ?_⟩
      simp only [formatBits, h10, if_true, parseDigitsFrom, digitValue_digitChar n h10]
    · have hdiv : n / 10 < fuel := by omega
      obtain ⟨m, hm⟩ := ih (n / 10) (digitChar (n % 10) :: acc) hdiv
      refine ⟨m * 10, fun a => ?_⟩
      have hmod : n % 10 < 10 := Nat.mod_lt _ (by decide)
      simp only [formatBits, h10, if_false, hm a, parseDigitsFrom,
        digitValue_digitChar (n % 10) hmod]
      congr 1
      have := Nat.div_add_mod n 10
      ring_nf
      omega

theorem formatBits_head (fuel n : Nat) (acc : List Char) (hn : n < fuel) :
    ∃ (d : Nat) (tail : List Char), d < 10 ∧ formatBits fuel n acc = digitChar d :: tail := by
  induction fuel generalizing n acc with
  | zero => omega
  | succ fuel ih =>
    by_cases h10 : n < 10
    · exact ⟨n, acc, h10, by simp only [formatBits, h10, if_true]⟩
    · have hdiv : n / 10 < fuel := by omega
      obtain ⟨d, tail, hd, ht⟩ := ih (n / 10) (digitChar (n % 10) :: acc) hdiv
      exact ⟨d, tail, hd, by simp only [formatBits, h10, if_false, ht]⟩

theorem parse_FormatUint (n : Nat) : parseDigitsFrom 0 (FormatUint n) = some n := by
  obtain ⟨m, hm⟩ := parseDigitsFrom_formatBits (n + 1) n [] (by omega)
  unfold FormatUint
  rw [hm 0]
  simp [parseDigitsFrom]

theorem ParseInt_FormatInt (bitSize : Nat) (v : Int)
    (hlo : -((2 ^ (bitSize - 1) : Nat) : Int) ≤ v)
    (hhi : v < ((2 ^ (bitSize - 1) : Nat) : Int)) :
    ParseInt (FormatInt v) bitSize = (v, none) := by
  generalize hC : 2 ^ (bitSize - 1) = C at hlo hhi
  by_cases hneg : v < 0
  · obtain ⟨d, tail, hd, ht⟩ := formatBits_head (v.natAbs + 1) v.natAbs [] (by omega)
    have hparse := parse_FormatUint v.natAbs
    have hdata : (FormatInt v).data = '-' :: FormatUint v.natAbs := by
      simp only [FormatInt, hneg, if_true]
    have hbody : FormatUint v.natAbs = digitChar d :: tail := ht
    have hun : ((v.natAbs : Nat) : Int) = -v := by omega
    generalize v.natAbs = un at hparse hdata hbody hun
    have hcut : ¬ (C < un) := by omega
    have hval : -(un : Int) = v := by omega
    unfold ParseInt
    rw [hdata]
    simp only [decide_True, or_true, if_true]
    rw [hbody] at hparse ⊢
    simp only [hparse, hC]
    simp [hcut, hval]
  · obtain ⟨d, tail, hd, ht⟩ := formatBits_head (v.toNat + 1) v.toNat [] (by omega)
    have hparse := parse_FormatUint v.toNat
    have hdata : (FormatInt v).data = FormatUint v.toNat := by
      simp only [FormatInt, hneg, if_false]
    have hbody : FormatUint v.toNat = digitChar d :: tail := ht
    obtain ⟨hm, hp⟩ := digitChar_not_sign d hd
    have hun : ((v.toNat : Nat) : Int) = v := by omega
    generalize v.toNat = un at hparse hdata hbody hun
    have hcut : ¬ (C ≤ un) := by omega
    unfold ParseInt
    rw [hdata, hbody]
    simp only [hm, hp, decide_False, or_self, if_false]
    rw [← hbody, hparse]
    simp only [hC]
    simp [hcut, hun]


theorem MustGetRedis_cached {σ : Type} (env : Env) (w : World σ) (c : Client)
    (h : w.globalRedisClient = some c) : MustGetRedis env w = (.ret (some c), w) := by
  unfold MustGetRedis GetRedis
  rw [h]

theorem MustGetRedis_caches {σ : Type} (env : Env) (w w1 : World σ) (c : Client)
    (h : MustGetRedis env w = (.ret (some c), w1)) : w1.globalRedisClient = some c := by
  unfold MustGetRedis GetRedis at h
  cases hc : w.globalRedisClient with
  | some c0 =>
    simp only [hc, Prod.mk.injEq, Outcome.ret.injEq, Option.some.injEq] at h
    rw [← h.2, hc, h.1]
  | none =>
    cases ho : w.globalOption with
    | none => simp [hc, ho] at h
    | some opt =>
      cases hp : env.ping w.pings with
      | some e => simp [hc, ho, hp] at h
      | none =>
        simp only [hc, ho, hp, Prod.mk.injEq, Outcome.ret.injEq, Option.some.injEq] at h
        rw [← h.2, ← h.1]

theorem send_answered {σ : Type} (env : Env) (cmd : Command)
    (effect : List (String × String) → List (String × String)) (w w1 : World σ) (c : Client)
    (hconn : MustGetRedis env w = (.ret (some c), w1))
    (hf : env.fault w1.commands.length = none) :
    send env cmd effect w =
      (.ret (w1.commands.length, none),
        { w1 with commands := w1.commands ++ [cmd], store := effect w1.store }) := by
  unfold send
  rw [hconn]
  simp only [hf]

theorem send_refused {σ : Type} (env : Env) (cmd : Command)
    (effect : List (String × String) → List (String × String)) (w w1 : World σ) (c : Client)
    (e : Error) (hconn : MustGetRedis env w = (.ret (some c), w1))
    (hf : env.fault w1.commands.length = some e) :
    send env cmd effect w =
      (.ret (w1.commands.length, some e), { w1 with commands := w1.commands ++ [cmd] }) := by
  unfold send
  rw [hconn]
  simp only [hf]

theorem Set_then_Get {σ : Type} (env : Env) (k : StringKey) (value : String)
    (expiration : Int) (w w1 : World σ) (c : Client)
    (hconn : MustGetRedis env w = (.ret (some c), w1))
    (hf1 : env.fault w1.commands.length = none)
    (hf2 : env.fault (w1.commands.length + 1) = none) :
    (k.Set env value expiration w).1 = .ret none ∧
    (k.Get env (k.Set env value expiration w).2).1 = .ret (value, none) := by
  have hset : k.Set env value expiration w =
      (.ret none, { w1 with commands := w1.commands ++ [Command.set k.key value expiration],
                            store := mapSet w1.store k.key value }) := by
    unfold StringKey.Set
    rw [send_answered env _ _ w w1 c hconn hf1]
    rfl
  rw [hset]
  refine ⟨rfl, ?_⟩
  have hcached := MustGetRedis_caches env w w1 c hconn
  have hconn2 := MustGetRedis_cached env
    { w1 with commands := w1.commands ++ [Command.set k.key value expiration],
              store := mapSet w1.store k.key value } c hcached
  have hf2' : env.fault
      ({ w1 with commands := w1.commands ++ [Command.set k.key value expiration],
                 store := mapSet w1.store k.key value } : World σ).commands.length = none := by
    simpa using hf2
  unfold StringKey.Get
  rw [send_answered env _ _ _ _ c hconn2 hf2']
  simp [andThen, storeGet, lookup_mapSet, passThrough]

/-- C17: on a store that answers and returns what was set, for every `v` of the
type `int` (of the width `intSize` of the platform) the text `SetInt` writes,
`strconv.Itoa v`, is decoded by `strconv.Atoi` to `v` with no error, and `GetInt`
after `SetInt` returns `v` with a nil error; for every `v` of the type `int64`
the same holds of `FormatInt`, `ParseInt`, `SetInt64` and `GetInt64`.  Negative
values and the two bounds of each type are among the values covered. -/
theorem SetInt_GetInt_roundtrip {σ : Type} (env : Env) (k : StringKey) (expiration : Int)
    (w w1 : World σ) (c : Client)
    (hconn : MustGetRedis env w = (.ret (some c), w1))
    (hf1 : env.fault w1.commands.length = none)
    (hf2 : env.fault (w1.commands.length + 1) = none) :
    (∀ v : Int, -((2 ^ (env.intSize - 1) : Nat) : Int) ≤ v →
      v < ((2 ^ (env.intSize - 1) : Nat) : Int) →
      Atoi env.intSize (Itoa v) = (v, none) ∧
      (k.SetInt env v expiration w).1 = .ret none ∧
      (k.GetInt env (k.SetInt env v expiration w).2).1 = .ret (v, none)) ∧
    (∀ v : Int, -((2 ^ 63 : Nat) : Int) ≤ v → v < ((2 ^ 63 : Nat) : Int) →
      ParseInt (FormatInt v) 64 = (v, none) ∧
      (k.SetInt64 env v expiration w).1 = .ret none ∧
      (k.GetInt64 env (k.SetInt64 env v expiration w).2).1 = .ret (v, none)) := by
  constructor
  · intro v hlo hhi
    have hparse : Atoi env.intSize (Itoa v) = (v, none) :=
      ParseInt_FormatInt env.intSize v hlo hhi
    obtain ⟨hs, hg⟩ := Set_then_Get env k (Itoa v) expiration w w1 c hconn hf1 hf2
    refine ⟨hparse, hs, ?_⟩
    unfold StringKey.GetInt StringKey.SetInt
    rcases hget : k.Get env (k.Set env (Itoa v) expiration w).2 with ⟨r, w3⟩
    rw [hget] at hg
    simp only at hg
    subst hg
    simp [andThen, hparse, passThrough]
  · intro v hlo hhi
    have hparse : ParseInt (FormatInt v) 64 = (v, none) := ParseInt_FormatInt 64 v hlo hhi
    obtain ⟨hs, hg⟩ := Set_then_Get env k (FormatInt v) expiration w w1 c hconn hf1 hf2
    refine ⟨hparse, hs, ?_⟩
    unfold StringKey.GetInt64 StringKey.SetInt64
    rcases hget : k.Get env (k.Set env (FormatInt v) expiration w).2 with ⟨r, w3⟩
    rw [hget] at hg
    simp only at hg
    subst hg
    simp [andThen, hparse, passThrough]

theorem SetInt_GetInt_roundtrip_witness :
    (Atoi 64 (Itoa (-9223372036854775808)) = (-9223372036854775808, none) ∧
      ((NewStringKey "test2").SetInt calmEnv (-9223372036854775808) 0 freshWorld).1 =
        .ret none ∧
      ((NewStringKey "test2").GetInt calmEnv
          ((NewStringKey "test2").SetInt calmEnv (-9223372036854775808) 0 freshWorld).2).1 =
        .ret (-9223372036854775808, none)) ∧
    (ParseInt (FormatInt 9223372036854775807) 64 = (9223372036854775807, none) ∧
      ((NewStringKey "test3").SetInt64 calmEnv 9223372036854775807 0 freshWorld).1 =
        .ret none ∧
      ((NewStringKey "test3").GetInt64 calmEnv
          ((NewStringKey "test3").SetInt64 calmEnv 9223372036854775807 0 freshWorld).2).1 =
        .ret (9223372036854775807, none)) ∧
    Itoa 222 = "222" ∧ Itoa (-9223372036854775808) = "-9223372036854775808" :=
  ⟨(SetInt_GetInt_roundtrip calmEnv (NewStringKey "test2") 0 freshWorld _ ⟨0, testOptions⟩
      rfl rfl rfl).1 (-9223372036854775808) (by decide) (by decide),
    (SetInt_GetInt_roundtrip calmEnv (NewStringKey "test3") 0 freshWorld _ ⟨0, testOptions⟩
      rfl rfl rfl).2 9223372036854775807 (by decide) (by decide),
    by decide, by decide⟩


/-! ## C16: XGroupRead -/

/-- C16: whatever the store answers to the group read: for `redis.Nil`,
`XGroupRead` returns `(nil, ErrRecordNotFound)`; for another error `e` it returns
`(nil, e)`; for an answer without error it returns the messages of the first
stream with a nil error when the answer is not empty and its first stream bears
the name of the key, and `(nil, ErrInvalidResultCount)` otherwise. -/
theorem XGroupRead_cases {σ : Type} (env : Env) (s : StreamKey) (group consumer : String)
    (count block : Int) (noAck : Bool) (w w1 : World σ) (n : Nat) (err : Option Error)
    (hsend : send env (.xreadGroup group consumer [s.key, ">"] count block noAck) id w =
      (.ret (n, err), w1)) :
    (err = some .redisNil →
      s.XGroupRead env group consumer count block noAck w =
        (.ret (none, some .ErrRecordNotFound), w1)) ∧
    (∀ e : Error, err = some e → e ≠ .redisNil →
      s.XGroupRead env group consumer count block noAck w = (.ret (none, some e), w1)) ∧
    (err = none →
      (∀ (first : XStream) (rest : List XStream), env.streams n = first :: rest →
        first.Stream = s.key →
        s.XGroupRead env group consumer count block noAck w =
          (.ret (some first.Messages, none), w1)) ∧
      (env.streams n = [] →
        s.XGroupRead env group consumer count block noAck w =
          (.ret (none, some .ErrInvalidResultCount), w1)) ∧
      (∀ (first : XStream) (rest : List XStream), env.streams n = first :: rest →
        first.Stream ≠ s.key →
        s.XGroupRead env group consumer count block noAck w =
          (.ret (none, some .ErrInvalidResultCount), w1))) := by
  refine ⟨?_, ?_, ?_⟩
  · intro he
    subst he
    simp [StreamKey.XGroupRead, hsend, andThen]
  · intro e he hne
    subst he
    simp [StreamKey.XGroupRead, hsend, andThen, hne]
  · intro he
    subst he
    refine ⟨?_, ?_, ?_⟩
    · intro first rest hst hname
      simp [StreamKey.XGroupRead, hsend, andThen, hst, hname]
    · intro hst
      simp [StreamKey.XGroupRead, hsend, andThen, hst]
    · intro first rest hst hname
      simp [StreamKey.XGroupRead, hsend, andThen, hst, hname]

theorem XGroupRead_cases_witness :
    (NewStreamKey "stream2").XGroupRead idleStream "group1" "consumer1" 1 1000000000 false
        freshWorld =
      (.ret (none, some .ErrRecordNotFound),
        (send idleStream (.xreadGroup "group1" "consumer1" ["stream2", ">"] 1 1000000000 false)
          id freshWorld).2) ∧
    (NewStreamKey "stream2").XGroupRead busyStream "group1" "consumer1" 1 1000000000 false
        freshWorld =
      (.ret (some [{ ID := "1-0", Values := [("fff", "1"), ("b", "2")] }], none),
        (send busyStream (.xreadGroup "group1" "consumer1" ["stream2", ">"] 1 1000000000 false)
          id freshWorld).2) ∧
    ((NewStreamKey "stream9").XGroupRead busyStream "group1" "consumer1" 1 1000000000 false
        freshWorld).1 = .ret (none, some .ErrInvalidResultCount) ∧
    ((NewStreamKey "stream2").XGroupRead brokenPipe "group1" "consumer1" 1 1000000000 false
        freshWorld).1 = .ret (none, some (.transport "write: broken pipe")) :=
  ⟨(XGroupRead_cases idleStream (NewStreamKey "stream2") "group1" "consumer1" 1 1000000000
      false freshWorld _ 0 (some .redisNil) rfl).1 rfl,
    ((XGroupRead_cases busyStream (NewStreamKey "stream2") "group1" "consumer1" 1 1000000000
      false freshWorld _ 0 none rfl).2.2 rfl).1 _ [] rfl rfl,
    rfl, rfl⟩


/-! ## C15: errors of the store -/

theorem SetNX_refused {σ : Type} (env : Env) (k : StringKey) (value : String)
    (expiration : Int) (w w1 : World σ) (c : Client) (e : Error)
    (hconn : MustGetRedis env w = (.ret (some c), w1))
    (hf : env.fault w1.commands.length = some e) :
    k.SetNX env value expiration w =
      (.ret (false, some e),
        { w1 with commands := w1.commands ++ [Command.setnx k.key value expiration] }) := by
  unfold StringKey.SetNX
  rw [hconn]
  simp only [setNXOn, clientSetNX, hf]

/-- C15, as amended: every operation of a key handle whose signature has an
error result returns a non-nil error when the store answers its command with an
error: the error of the store itself, except that `XGroupRead` reports
`redis.Nil` as `ErrRecordNotFound`; and the operations that read a string
(`Get`, `GetInt`, `GetInt64`, `GetObject`) return `redis.Nil` for a key the store
does not hold.  `GetDefault`, whose only result is a string, returns the default
value whenever the underlying `Get` fails. -/
theorem operation_returns_store_error {σ : Type} (env : Env) (w w1 : World σ) (c : Client)
    (hconn : MustGetRedis env w = (.ret (some c), w1)) :
    (∀ (op : Operation σ) (cmd : Command) (e : Error), op.returnsError = true →
      op.command = some cmd → env.fault w1.commands.length = some e →
      op.error env w =
        (.ret (some (op.reported e)), { w1 with commands := w1.commands ++ [cmd] })) ∧
    (∀ (op : Operation σ) (k : StringKey), op.getKey = some k →
      env.fault w1.commands.length = none → w1.store.lookup k.key = none →
      op.error env w =
        (.ret (some .redisNil), { w1 with commands := w1.commands ++ [Command.get k.key] })) ∧
    (∀ (k : StringKey) (defaultValue value : String) (e : Error) (w2 : World σ),
      k.Get env w = (.ret (value, some e), w2) →
      k.GetDefault env defaultValue w = (.ret defaultValue, w2)) := by
  refine ⟨?_, ?_, ?_⟩
  · intro op cmd e hret hcmd hf
    have hs := fun cmd eff => send_refused env cmd eff w w1 c e hconn hf
    have hnx := fun k value expiration => SetNX_refused env k value expiration w w1 c e hconn hf
    cases op <;>
      simp only [Operation.command, Operation.error, Operation.reported, errorOnly, andThen,
        hs, hnx, passThrough, Key.Del, Key.Expire, Key.ExpireAt, Key.TTL, Key.Exists,
        StringKey.Get, StringKey.GetInt, StringKey.GetInt64, StringKey.GetObject,
        StringKey.Set, StringKey.SetInt, StringKey.SetInt64,
        StringKey.GetLocker, afterSetNX, StringKey.Increase, StringKey.IncreaseBy,
        HashSetKey.HGet, HashSetKey.HGetObject, HashSetKey.HMGet, HashSetKey.HGetAll,
        HashSetKey.HSet, HashSetKey.HLen, SetKey.SIsMember, SetKey.SMembers,
        SetKey.SMembersMap, SetKey.SCard, StreamKey.XAdd, StreamKey.XAck,
        StreamKey.XGroupCreate, StreamKey.XGroupCreateFromBegining,
        StreamKey.XGroupCreateFromEnd, StreamKey.XGroupRead, Option.some.injEq] at hcmd ⊢
    all_goals first
      | (subst hcmd; rfl)
      | skip
    case GetDefault k defaultValue => cases hret
    case SetObject k obj expiration =>
      rcases hmar : obj.marshal with ⟨buffer, err⟩
      cases err with
      | some e1 => simp [hmar] at hcmd
      | none =>
        simp only [hmar, Option.some.injEq] at hcmd
        subst hcmd
        simp only [StringKey.SetObject, hmar, StringKey.Set, andThen, hs]
    case HSetObject k field value =>
      rcases hmar : value.marshal with ⟨buffer, err⟩
      cases err with
      | some e1 => simp [hmar] at hcmd
      | none =>
        simp only [hmar, Option.some.injEq] at hcmd
        subst hcmd
        simp only [HashSetKey.HSetObject, hmar, HashSetKey.HSet, andThen, hs]
    case HDel k field =>
      by_cases h0 : field.length = 0
      · simp [h0] at hcmd
      · simp only [h0, if_false, Option.some.injEq] at hcmd
        subst hcmd
        simp only [HashSetKey.HDel, h0, if_false, andThen, hs]
    case SAdd k members =>
      by_cases h0 : members.length = 0
      · simp [h0] at hcmd
      · simp only [h0, if_false, Option.some.injEq] at hcmd
        subst hcmd
        simp only [SetKey.SAdd, h0, if_false, andThen, hs]
    case SRem k members =>
      by_cases h0 : members.length = 0
      · simp [h0] at hcmd
      · simp only [h0, if_false, Option.some.injEq] at hcmd
        subst hcmd
        simp only [SetKey.SRem, h0, if_false, andThen, hs]
    case XAddToEnd s values =>
      by_cases h0 : values.length < 2 ∨ values.length % 2 ≠ 0
      · rw [if_pos h0] at hcmd
        cases hcmd
      · rw [if_neg h0] at hcmd
        simp only [Option.some.injEq] at hcmd
        subst hcmd
        simp only [StreamKey.XAddToEnd, h0, if_false, StreamKey.XAdd, andThen, hs,
          passThrough]
    case XGroupRead s group consumer count block noAck =>
      subst hcmd
      by_cases hnil : e = .redisNil
      · simp [hnil]
      · simp [hnil]
  · intro op k hkey hf hnone
    have hs := fun cmd eff => send_answered env cmd eff w w1 c hconn hf
    cases op <;> simp [Operation.getKey] at hkey <;> subst hkey <;>
      simp [Operation.error, errorOnly, andThen, hs, StringKey.Get, StringKey.GetInt,
        StringKey.GetInt64, StringKey.GetObject, storeGet, hnone, passThrough]
  · intro k defaultValue value e w2 hget
    simp only [StringKey.GetDefault, hget, andThen]

theorem operation_returns_store_error_witness :
    ((Operation.HGet (NewHashSetKey "hs111") "1" : Operation Nat).error brokenPipe
        freshWorld).1 = .ret (some (.transport "write: broken pipe")) ∧
    ((Operation.XGroupRead (NewStreamKey "stream2") "group1" "consumer1" 1 1000000000 false :
        Operation Nat).error idleStream freshWorld).1 = .ret (some .ErrRecordNotFound) ∧
    ((Operation.GetInt (NewStringKey "test2") : Operation Nat).error calmEnv freshWorld).1 =
      .ret (some .redisNil) ∧
    ((NewStringKey "test1").GetDefault brokenPipe "fallback" freshWorld).1 = .ret "fallback" :=
  have h1 := operation_returns_store_error brokenPipe freshWorld _ ⟨0, testOptions⟩ rfl
  have h2 := operation_returns_store_error idleStream freshWorld _ ⟨0, testOptions⟩ rfl
  have h3 := operation_returns_store_error calmEnv freshWorld _ ⟨0, testOptions⟩ rfl
  ⟨congrArg Prod.fst (h1.1 (.HGet (NewHashSetKey "hs111") "1") _ _ rfl rfl rfl),
    congrArg Prod.fst (h2.1 (.XGroupRead (NewStreamKey "stream2") "group1" "consumer1" 1
      1000000000 false) _ _ rfl rfl rfl),
    congrArg Prod.fst (h3.2.1 (.GetInt (NewStringKey "test2")) _ rfl rfl rfl),
    congrArg Prod.fst (h1.2.2 (NewStringKey "test1") "fallback" "" _ _ rfl)⟩

/-- C15 fails as stated at `GetDefault`: the store answers the `GET` with a
transport error, `Get` returns it, and `GetDefault` returns the default value,
with nothing that tells the caller of the error; the same when the store holds
no such key and `Get` returns `redis.Nil`. -/
theorem operation_returns_store_error_counterexample :
    ((NewStringKey "test1").Get brokenPipe freshWorld).1 =
      .ret ("", some (.transport "write: broken pipe")) ∧
    ((NewStringKey "test1").GetDefault brokenPipe "fallback" freshWorld).1 = .ret "fallback" ∧
    ((Operation.GetDefault (NewStringKey "test1") "fallback" : Operation Nat).error brokenPipe
        freshWorld).1 = .ret none ∧
    ((NewStringKey "test1").Get calmEnv freshWorld).1 = .ret ("", some .redisNil) ∧
    ((NewStringKey "test1").GetDefault calmEnv "fallback" freshWorld).1 = .ret "fallback" :=
  ⟨rfl, rfl, rfl, rfl, rfl⟩

end Ro
